import Mathlib

/-!
Shallow embedding of the `alien-middleware` runtime core.

The embedding follows `src/index.ts` (the `MiddlewareChain` class, the
`createHandler` executor and `createExtendedEnv`) and `src/router.ts`
(the `routes` registry).  JavaScript objects that matter only by reference
identity (middleware functions, `Headers` buffers, chain values, routers)
are modelled by numeric identities; mutable `Headers` buffers live in an
explicit heap so that mutation versus cloning is observable.  Asynchronous
execution is sequential in the source (each handler is awaited before the
next starts), so the embedding is a sequential interpreter; the interpreter
takes a fuel argument only to satisfy termination, and every theorem either
holds for all fuel values or evaluates a concrete run with ample fuel.

Function-valued context slots installed by the executor itself
(`passThrough`, `setHeader`, `onResponse`, the cached `url` getter) are
modelled structurally as interpreter state rather than as ordinary
properties; plugin-defined properties are modelled as data descriptors
(string-or-nullish values with `writable` / `enumerable` attributes),
mirroring `Object.defineProperty` validation for data descriptors.
-/

/-- A Web `Response` as far as the executor observes it: status, header
list (names lower-cased as `Headers` does), body text, and whether
`response.type === 'default'` (non-default responses are cloned before
header mutation). -/
structure Resp where
  status : Nat
  headers : List (String × String)
  body : String
  isDefault : Bool
deriving Repr, DecidableEq

/-- `headers.set name value`: an existing entry (`Headers` keeps at most
one per name) is replaced in place, otherwise the pair is appended.
Header names are compared verbatim: the case-normalization `Headers`
performs is outside the claims, which use lower-case names
throughout. -/
def hset : List (String × String) → String → String → List (String × String)
  | [], k, v => [(k, v)]
  | e :: tl, k, v =>
      if e.1 == k then (k, v) :: tl else e :: hset tl k v

/-- `headers.get name`. -/
def hget (hs : List (String × String)) (k : String) : Option String :=
  (hs.find? (fun e => e.1 == k)).map (fun e => e.2)

/-- An environment override table, as built by `createExtendedEnv`:
string keys mapped to a string or to a nullish value (`none`). -/
abbrev EnvTable := List (String × Option String)

/-- Raw property lookup `t[k]`: `some v` when the key is present with
value `v` (itself possibly nullish), `none` when the key is absent. -/
def tlookup (t : EnvTable) (k : String) : Option (Option String) :=
  (t.find? (fun e => e.1 == k)).map (fun e => e.2)

/-- Define-or-overwrite one key of an env table (the effect of
`Object.defineProperties` on the plain `env` object, whose properties all
stay configurable). -/
def tset (t : EnvTable) (k : String) (v : Option String) : EnvTable :=
  if t.any (fun e => e.1 == k) then
    t.map (fun e => if e.1 == k then (k, v) else e)
  else t ++ [(k, v)]

/-- Merge a table of new definitions into an env table, key by key. -/
def tmerge (t u : EnvTable) : EnvTable :=
  u.foldl (fun a e => tset a e.1 e.2) t

/-- The accessor installed by `createExtendedEnv`:
`context.env = key => env[key] ?? superEnv(key)`.  The override value is
used only when present and non-nullish; otherwise the parent accessor is
consulted. -/
def extendedEnvGet (env : EnvTable) (superEnv : String → Option String) (k : String) :
    Option String :=
  match tlookup env k with
  | some (some v) => some v
  | _ => superEnv k

/-- The env accessor visible on a context: a stack of `createExtendedEnv`
layers (innermost first) over the adapter's base accessor. -/
def envLookup : List EnvTable → (String → Option String) → String → Option String
  | [], base, k => base k
  | t :: rest, base, k => extendedEnvGet t (envLookup rest base) k

/-- A data property descriptor as the executor stores it on the context:
`Object.getOwnPropertyDescriptor(result, key)` with `configurable` forced
to `false` (so `configurable` is not a field here — every plugin-defined
own property is non-configurable).  Accessor descriptors are not
modelled. -/
structure PropDesc where
  value : Option String
  writable : Bool
  enumerable : Bool
deriving Repr, DecidableEq

/-- Errors an execution step can surface: interpreter fuel exhaustion, or
the `TypeError` thrown by `Object.defineProperty` when descriptor
validation fails. -/
inductive ExecErr where
  | fuel
  | typeError (key : String)
deriving Repr, DecidableEq

/-- `Object.defineProperty(context, key, descriptor)` restricted to the
executor's usage: the incoming descriptor always has
`configurable: false`, and any existing own property at `key` was itself
defined this way (hence non-configurable).  Per ES
ValidateAndApplyPropertyDescriptor on a non-configurable data property:
an `enumerable` mismatch is rejected; when the current property is
non-writable, making it writable or changing its value is rejected;
when the current property is writable, the new value is applied. -/
def defineStep (own : List (String × PropDesc)) (key : String) (d : PropDesc) :
    Except ExecErr (List (String × PropDesc)) :=
  match own.find? (fun e => e.1 == key) with
  | none => .ok (own ++ [(key, d)])
  | some cur =>
      if d.enumerable != cur.2.enumerable then .error (.typeError key)
      else if !cur.2.writable && (d.writable || d.value != cur.2.value) then
        .error (.typeError key)
      else .ok (own.map (fun e =>
        if e.1 == key then (key, { e.2 with value := d.value, writable := d.writable }) else e))

/-- A dynamically registered response callback (`ctx.onResponse(cb)` or a
plugin's `onResponse` field), with its reference identity. -/
structure RCallback where
  id : Nat
  fn : Resp → Option Resp

/-- One key of a request plugin object, in `for key in result` order.
Reserved keys carry their special payloads; `env` / `onResp` with `none`
payload model a falsy value at the reserved key (skipped by the
executor). -/
inductive ExtEntry where
  | prop (key : String) (d : PropDesc)
  | envE (table : Option EnvTable)
  | onRespE (cb : Option RCallback)

/-- What a request middleware's awaited return value is: a `Response`, a
plugin object, or `undefined`. -/
inductive MwRet where
  | resp (r : Resp)
  | ext (e : List ExtEntry)
  | non

/-- The observable behaviour of one plain middleware invocation: the
calls it made on the context (`passThrough()`, `setHeader(...)`,
`onResponse(...)`, in order) and its return value. -/
structure MwEffect where
  passThroughCall : Bool
  headerCalls : List (String × String)
  onRespCalls : List RCallback
  ret : MwRet

/-- A request context as the executor sees it.  Contexts form a prototype
chain in the source; here each derived context carries its own data plus
the flattened view of what it inherits.  `respHeaders` is a reference
into the header-buffer heap (`none` = no buffer anywhere on the chain). -/
structure Ctx where
  ignoreNotFound : Bool
  cache : List Nat
  respHeaders : Option Nat
  own : List (String × PropDesc)
  inherited : List (String × PropDesc)
  envLayers : List EnvTable
  baseEnv : String → Option String
  reqMethod : String
  reqPath : String

/-- A request middleware: a plain function with reference identity `id`,
or a chain-handler function used as a middleware (the shape produced by
`isolate()` wrappers and routers), which runs a nested invocation of its
own request chain. -/
inductive Mw where
  | fn (id : Nat) (run : Ctx → MwEffect)
  | chainFn (id : Nat) (sub : List Mw)

/-- The heap of mutable `Headers` buffers; `Ctx.respHeaders` indexes into
it. -/
abbrev Heap := List (List (String × String))

/-- Mutable state of one `handler(parentContext)` invocation while its
request loop runs. -/
structure LoopSt where
  ctx : Ctx
  pRH : Option Nat
  heap : Heap
  envCreated : Bool
  spt : Bool
  respChain : List RCallback
  trace : List Nat
  localTrace : List Nat
  result : Option Resp

/-- The observable outcome of one chain invocation.  `trace` lists every
request-middleware identity invoked, nested invocations included, in
order; `localTrace` only those invoked directly at this level.
`registered` lists the identities of the response callbacks registered
during the request phase, `cbTrace` those actually run.  `preCb` is the
response entering the response phase (after buffered headers were
applied), `mwResponse` the response returned by a request middleware (if
any), and `adapterPT` records whether the parent's captured
`passThrough` was invoked. -/
structure InvOut where
  response : Option Resp
  adapterPT : Bool
  heap : Heap
  trace : List Nat
  localTrace : List Nat
  cbTrace : List Nat
  registered : List Nat
  finalProps : List (String × PropDesc)
  preCb : Option Resp
  mwResponse : Option Resp
deriving Repr, DecidableEq

/-- `context.setHeader(name, value)`: when the context still shares the
parent's buffer (also when neither has one), clone the inherited buffer
into a fresh heap cell scoped to this context, then set; otherwise set on
this context's own buffer in place. -/
def doSetHeader (st : LoopSt) (k v : String) : LoopSt :=
  if st.ctx.respHeaders == st.pRH then
    let parentEntries := match st.pRH with
      | some i => st.heap.getD i []
      | none => []
    let fresh := st.heap.length
    { st with heap := st.heap ++ [hset parentEntries k v],
              ctx := { st.ctx with respHeaders := some fresh } }
  else
    match st.ctx.respHeaders with
    | some i => { st with heap := st.heap.set i (hset (st.heap.getD i []) k v) }
    | none => st

/-- Apply the calls one middleware made while running: header sets, then
callback registrations and the pass-through flag. -/
def applyCalls (st : LoopSt) (eff : MwEffect) : LoopSt :=
  let st1 := eff.headerCalls.foldl (fun s e => doSetHeader s e.1 e.2) st
  { st1 with respChain := st1.respChain ++ eff.onRespCalls,
             spt := st1.spt || eff.passThroughCall }

/-- Merge a plugin's `env` table: on first use create the extended env
(push a fresh layer whose parent is the current accessor), then define
the table's keys on that layer (`env ||= createExtendedEnv(context)`
followed by `Object.defineProperties`). -/
def mergeEnvExt (st : LoopSt) (t : EnvTable) : LoopSt :=
  if st.envCreated then
    match st.ctx.envLayers with
    | l :: rest => { st with ctx := { st.ctx with envLayers := tmerge l t :: rest } }
    | [] => { st with ctx := { st.ctx with envLayers := [tmerge [] t] } }
  else
    { st with envCreated := true,
              ctx := { st.ctx with envLayers := tmerge [] t :: st.ctx.envLayers } }

/-- Walk a plugin object's keys in order: the reserved `env` key merges
into the extended environment when truthy, the reserved `onResponse` key
enqueues a callback when truthy, and every other key is defined on the
context with `configurable: false` (which may throw). -/
def applyExt : LoopSt → List ExtEntry → Except ExecErr LoopSt
  | st, [] => .ok st
  | st, .envE t :: rest =>
      match t with
      | some tbl => applyExt (mergeEnvExt st tbl) rest
      | none => applyExt st rest
  | st, .onRespE c :: rest =>
      match c with
      | some cb => applyExt { st with respChain := st.respChain ++ [cb] } rest
      | none => applyExt st rest
  | st, .prop key d :: rest =>
      if key == "env" || key == "onResponse" then applyExt st rest
      else
        match defineStep st.ctx.own key d with
        | .error e => .error e
        | .ok own2 => applyExt { st with ctx := { st.ctx with own := own2 } } rest

/-- `Object.create(parentContext)` plus the executor's own marks: the
derived context sets its own ignore-not-found mark, copies the parent's
middleware cache into a fresh set, and inherits everything else through
the prototype chain. -/
def deriveCtx (parent : Ctx) : Ctx :=
  { ignoreNotFound := true,
    cache := parent.cache,
    respHeaders := parent.respHeaders,
    own := [],
    inherited := parent.own ++ parent.inherited,
    envLayers := parent.envLayers,
    baseEnv := parent.baseEnv,
    reqMethod := parent.reqMethod,
    reqPath := parent.reqPath }

/-- Run the registered response callbacks in order: a callback returning
a response replaces the current one, returning nothing keeps it.
Also returns the identities run, in order. -/
def runCallbacks : List RCallback → Resp → Resp × List Nat
  | [], r => (r, [])
  | cb :: rest, r =>
      let r2 := match cb.fn r with
        | some x => x
        | none => r
      let o := runCallbacks rest r2
      (o.1, cb.id :: o.2)

/-- Apply a buffered header table onto a response
(`headers.forEach((value, name) => response.headers.set(name, value))`). -/
def applyBuf (r : Resp) (entries : List (String × String)) : Resp :=
  { r with headers := entries.foldl (fun hs e => hset hs e.1 e.2) r.headers }

/-- `new Response('Not Found', { status: 404 })` (a string body implies a
text content type; the response is of default type). -/
def notFoundResp : Resp :=
  { status := 404,
    headers := [("content-type", "text/plain;charset=UTF-8")],
    body := "Not Found",
    isDefault := true }

/-- `new Response(response.body, response)`: same status, headers and
body, but of default (mutable) type. -/
def cloneResp (r : Resp) : Resp :=
  { r with isDefault := true }

/-- The header buffer visible on the loop's context
(`context[kResponseHeaders]`, read through the prototype chain): the
referenced heap cell, or no entries when no buffer exists. -/
def bufferOf (st : LoopSt) : List (String × String) :=
  match st.ctx.respHeaders with
  | some i => st.heap.getD i []
  | none => []

/-- The tail of the invocation once a current response exists (already
cloned if needed): apply this context's buffered headers, disable
`setHeader`, then run the response callbacks. -/
def finishCore (st : LoopSt) (r1 : Resp) : InvOut :=
  let r2 := applyBuf r1 (bufferOf st)
  let o := runCallbacks st.respChain r2
  { response := some o.1,
    adapterPT := false,
    heap := st.heap,
    trace := st.trace,
    localTrace := st.localTrace,
    cbTrace := o.2,
    registered := st.respChain.map (fun cb => cb.id),
    finalProps := st.ctx.own,
    preCb := some r2,
    mwResponse := st.result }

/-- Fresh loop state for `handler(parentContext)`. -/
def initSt (parent : Ctx) (heap : Heap) : LoopSt :=
  { ctx := deriveCtx parent,
    pRH := parent.respHeaders,
    heap := heap,
    envCreated := false,
    spt := false,
    respChain := [],
    trace := [],
    localTrace := [],
    result := none }

/-- `cache.add(middleware)` (performed before the middleware runs) plus
the invocation-trace bookkeeping. -/
def addCache (st : LoopSt) (id : Nat) : LoopSt :=
  { st with ctx := { st.ctx with cache := st.ctx.cache ++ [id] },
            trace := st.trace ++ [id],
            localTrace := st.localTrace ++ [id] }

/-- Interpret one plain middleware's awaited return value (only reached
when no pass-through was signalled): a response stops the loop, a plugin
object is merged (which may throw), `undefined` continues.  The boolean
is `true` when the loop should continue with the remaining
middlewares. -/
def interpRet (st2 : LoopSt) : MwRet → Except ExecErr (LoopSt × Bool)
  | .resp r => .ok ({ st2 with result := some r }, false)
  | .ext e => (applyExt st2 e).map (fun st3 => (st3, true))
  | .non => .ok (st2, true)

/-- One uncached plain middleware step of the request loop: record it in
the cache, run it on the current context, apply the calls it made, then
either break on the pass-through signal (discarding the returned value)
or interpret the returned value. -/
def fnStep (st : LoopSt) (id : Nat) (run : Ctx → MwEffect) :
    Except ExecErr (LoopSt × Bool) :=
  let st1 := addCache st id
  let eff := run st1.ctx
  let st2 := applyCalls st1 eff
  if st2.spt then .ok (st2, false) else interpRet st2 eff.ret

/-- Fold a nested chain invocation's outcome back into the loop: adopt
its heap, append its invocation trace, and stop if it produced a
response.  (A nested invocation cannot set this level's pass-through
flag: it shadows `passThrough` on its own derived context before running
anything, and it only ever calls the captured parent `passThrough` when
its parent context carries no ignore-not-found mark, which is never the
case here.) -/
def chainStep (st1 : LoopSt) (out : InvOut) : LoopSt × Bool :=
  let st2 := { st1 with heap := out.heap, trace := st1.trace ++ out.trace }
  match out.response with
  | some r => ({ st2 with result := some r }, false)
  | none => (st2, true)

/-- The tail of `handler` after the request loop: a produced response is
cloned if non-default and finished; otherwise a nested invocation
returns no value, a top-level pass-through returns the synthesized 404
immediately (signalling the parent), and a plain top-level completion
finishes the synthesized 404 through headers and callbacks. -/
def postLoop (parent : Ctx) (st : LoopSt) : InvOut :=
  match st.result with
  | some r => finishCore st (if r.isDefault then r else cloneResp r)
  | none =>
      if parent.ignoreNotFound then
        { response := none, adapterPT := false, heap := st.heap,
          trace := st.trace, localTrace := st.localTrace, cbTrace := [],
          registered := st.respChain.map (fun cb => cb.id),
          finalProps := st.ctx.own, preCb := none, mwResponse := none }
      else if st.spt then
        { response := some notFoundResp, adapterPT := true, heap := st.heap,
          trace := st.trace, localTrace := st.localTrace, cbTrace := [],
          registered := st.respChain.map (fun cb => cb.id),
          finalProps := st.ctx.own, preCb := none, mwResponse := none }
      else finishCore st notFoundResp

mutual

/-- One invocation of a chain handler produced by `createHandler`:
derive a context, run the request loop, then finish via `postLoop`. -/
def invokeChain : Nat → List Mw → Ctx → Heap → Except ExecErr InvOut
  | 0, _, _, _ => .error .fuel
  | n + 1, ms, parent, heap =>
      (runReq n ms (initSt parent heap)).map (postLoop parent)

/-- The request loop of `handler`: skip middlewares already in the cache,
step plain middlewares via `fnStep`, and run nested chain handlers with
the current context as their parent, folding the outcome back via
`chainStep`. -/
def runReq : Nat → List Mw → LoopSt → Except ExecErr LoopSt
  | 0, _, _ => .error .fuel
  | _ + 1, [], st => .ok st
  | n + 1, .fn id run :: rest, st =>
      if id ∈ st.ctx.cache then runReq n rest st
      else
        match fnStep st id run with
        | .error e => .error e
        | .ok sc => if sc.2 then runReq n rest sc.1 else .ok sc.1
  | n + 1, .chainFn id sub :: rest, st =>
      if id ∈ st.ctx.cache then runReq n rest st
      else
        let st1 := addCache st id
        match invokeChain n sub st1.ctx st1.heap with
        | .error e => .error e
        | .ok out =>
            let sc := chainStep st1 out
            if sc.2 then runReq n rest sc.1 else .ok sc.1

end

mutual

/-- Reference identities reachable in one middleware (itself plus, for a
chain handler, everything in its sub-chain). -/
def mwIds : Mw → List Nat
  | .fn i _ => [i]
  | .chainFn i sub => i :: idsList sub

/-- Reference identities reachable in a request chain. -/
def idsList : List Mw → List Nat
  | [] => []
  | m :: rest => mwIds m ++ idsList rest

end

/-- A base (adapter-supplied) context: no ignore-not-found mark, empty
cache, no header buffer, no extended env layers. -/
def baseCtx : Ctx :=
  { ignoreNotFound := false,
    cache := [],
    respHeaders := none,
    own := [],
    inherited := [],
    envLayers := [],
    baseEnv := fun _ => none,
    reqMethod := "GET",
    reqPath := "/" }

/-- A middleware effect that does nothing and returns `undefined`. -/
def effNone : MwEffect :=
  { passThroughCall := false, headerCalls := [], onRespCalls := [], ret := .non }

/-!
Chain composition (`MiddlewareChain.use` / `createHandler`).

A chain value is a function object holding its `kRequestChain` list; chain
values are compared by reference, so they live in an allocation list
(`ChainHeap`) and are referred to by index.  `use` never mutates: it reads
the receiver's list, concatenates, and allocates a fresh handler via
`createHandler`.
-/

/-- The allocation store of chain values: index = reference identity,
entry = the value's `kRequestChain` list. -/
abbrev ChainHeap := List (List Mw)

/-- The argument of `use`: a single middleware, or (per
`middleware instanceof MiddlewareChain`) another chain value, whose list
is spliced in. -/
inductive UseArg where
  | mw (m : Mw)
  | chn (j : Nat)

/-- `MiddlewareChain.use`: build the concatenated request chain and
allocate a fresh handler for it (`createHandler` makes a new function
object, so the result's identity is the next free reference, never the
receiver's). -/
def chainUse (h : ChainHeap) (r : Nat) (a : UseArg) : ChainHeap × Nat :=
  let newList := match a with
    | .mw m => h.getD r [] ++ [m]
    | .chn j => h.getD r [] ++ h.getD j []
  (h ++ [newList], h.length)

/-!
Router (`routes` in `src/router.ts`).

The route table is three parallel arrays plus a lazily compiled matcher.
`compilePaths` (the external path matcher) is out of scope and is
abstracted by the ordered candidate list it would produce for a concrete
pathname: the matcher tries candidates in its own preference order and
returns the first non-undefined callback result.  The compiled matcher
value is modelled by the snapshot of paths it was compiled from.
-/

/-- A registered route handler with its reference identity; it receives
the request method and the extracted path parameters (the `method` and
`params` annotations put on the context before the call). -/
structure RouteHandler where
  id : Nat
  fn : String → List (String × String) → Option Resp

/-- The method argument of `router.use`: a wildcard, one method token, or
a list of tokens. -/
inductive MethodArg where
  | star
  | one (m : String)
  | many (ms : List String)

/-- A compiled method filter stored in `filters` (`null` is represented
by `Option.none` around this type): the closures
`m => method === m` and `m => method.includes(m)`. -/
inductive MFilter where
  | one (m : String)
  | many (ms : List String)
deriving Repr, DecidableEq

/-- Whether a method filter accepts a request method. -/
def mfAccepts : MFilter → String → Bool
  | .one m, x => m == x
  | .many ms, x => ms.contains x

/-- The filter pushed for a method argument: `'*'` pushes `null`. -/
def filterOfArg : MethodArg → Option MFilter
  | .star => none
  | .one m => some (.one m)
  | .many ms => some (.many ms)

/-- The mutable state captured by one `routes()` call. -/
structure RouterSt where
  paths : List String
  filters : List (Option MFilter)
  handlers : List RouteHandler
  matcher : Option (List String)

/-- An empty route table. -/
def emptyRouter : RouterSt :=
  { paths := [], filters := [], handlers := [], matcher := none }

/-- One `router.use(...)` call: the two-argument shape
`use(path, handler)` (the `method` parameter holds the path) or the
three-argument shape `use(method, path, handler)`. -/
inductive Registration where
  | handlerOnly (path : String) (h : RouteHandler)
  | withMethod (m : MethodArg) (path : String) (h : RouteHandler)

/-- The in-place effect of `router.use`: push one entry onto each
parallel array and reset the compiled matcher to `undefined`. -/
def applyReg (r : RouterSt) : Registration → RouterSt
  | .handlerOnly p h =>
      { paths := r.paths ++ [p], filters := r.filters ++ [none],
        handlers := r.handlers ++ [h], matcher := none }
  | .withMethod m p h =>
      { paths := r.paths ++ [p], filters := r.filters ++ [filterOfArg m],
        handlers := r.handlers ++ [h], matcher := none }

/-- `router.use` on a router reference: mutate the referenced state in
place and return the same reference (`return router`). -/
def routerUseRef (hp : List RouterSt) (r : Nat) (reg : Registration) :
    List RouterSt × Nat :=
  (hp.set r (applyReg (hp.getD r emptyRouter) reg), r)

/-- The router's dispatch against the matcher's candidate sequence for
the request pathname: for each candidate index, a `null` filter or an
accepting filter lets the route handler run (with `method` / `params`
annotated); a rejecting filter — and also a handler that returns
`undefined` — makes the matcher fall through to its next candidate.
Returns the first response produced (or none) and the identities of the
route handlers invoked, in order. -/
def handleRoute (filters : List (Option MFilter)) (handlers : List RouteHandler)
    (method : String) : List (Nat × List (String × String)) → Option Resp × List Nat
  | [] => (none, [])
  | (i, ps) :: rest =>
      let ok := match filters.getD i none with
        | none => true
        | some f => mfAccepts f method
      if ok then
        match handlers[i]? with
        | some h =>
            match h.fn method ps with
            | some r => (some r, [h.id])
            | none =>
                let o := handleRoute filters handlers method rest
                (o.1, h.id :: o.2)
        | none => handleRoute filters handlers method rest
      else handleRoute filters handlers method rest

/-!
Frame lemmas: which parts of the loop state each operation leaves
untouched.
-/

theorem doSetHeader_frame (st : LoopSt) (k v : String) :
    (doSetHeader st k v).trace = st.trace ∧
    (doSetHeader st k v).localTrace = st.localTrace ∧
    (doSetHeader st k v).ctx.cache = st.ctx.cache ∧
    (doSetHeader st k v).ctx.own = st.ctx.own ∧
    (doSetHeader st k v).respChain = st.respChain ∧
    (doSetHeader st k v).spt = st.spt ∧
    (doSetHeader st k v).result = st.result ∧
    (doSetHeader st k v).pRH = st.pRH ∧
    (doSetHeader st k v).envCreated = st.envCreated := by
  unfold doSetHeader
  split
  · simp
  · split <;> simp

theorem hFold_frame (hc : List (String × String)) (st : LoopSt) :
    (hc.foldl (fun s e => doSetHeader s e.1 e.2) st).trace = st.trace ∧
    (hc.foldl (fun s e => doSetHeader s e.1 e.2) st).localTrace = st.localTrace ∧
    (hc.foldl (fun s e => doSetHeader s e.1 e.2) st).ctx.cache = st.ctx.cache ∧
    (hc.foldl (fun s e => doSetHeader s e.1 e.2) st).ctx.own = st.ctx.own ∧
    (hc.foldl (fun s e => doSetHeader s e.1 e.2) st).respChain = st.respChain ∧
    (hc.foldl (fun s e => doSetHeader s e.1 e.2) st).spt = st.spt ∧
    (hc.foldl (fun s e => doSetHeader s e.1 e.2) st).result = st.result ∧
    (hc.foldl (fun s e => doSetHeader s e.1 e.2) st).pRH = st.pRH ∧
    (hc.foldl (fun s e => doSetHeader s e.1 e.2) st).envCreated = st.envCreated := by
  induction hc generalizing st with
  | nil => simp
  | cons e rest ih =>
      simp only [List.foldl_cons]
      have h1 := doSetHeader_frame st e.1 e.2
      have h2 := ih (doSetHeader st e.1 e.2)
      exact ⟨h2.1.trans h1.1, (h2.2.1).trans h1.2.1, (h2.2.2.1).trans h1.2.2.1,
        (h2.2.2.2.1).trans h1.2.2.2.1, (h2.2.2.2.2.1).trans h1.2.2.2.2.1,
        (h2.2.2.2.2.2.1).trans h1.2.2.2.2.2.1, (h2.2.2.2.2.2.2.1).trans h1.2.2.2.2.2.2.1,
        (h2.2.2.2.2.2.2.2.1).trans h1.2.2.2.2.2.2.2.1,
        (h2.2.2.2.2.2.2.2.2).trans h1.2.2.2.2.2.2.2.2⟩

theorem applyCalls_trace (st : LoopSt) (eff : MwEffect) :
    (applyCalls st eff).trace = st.trace := by
  unfold applyCalls
  simp [(hFold_frame eff.headerCalls st).1]

theorem applyCalls_localTrace (st : LoopSt) (eff : MwEffect) :
    (applyCalls st eff).localTrace = st.localTrace := by
  unfold applyCalls
  simp [(hFold_frame eff.headerCalls st).2.1]

theorem applyCalls_cache (st : LoopSt) (eff : MwEffect) :
    (applyCalls st eff).ctx.cache = st.ctx.cache := by
  unfold applyCalls
  simp [(hFold_frame eff.headerCalls st).2.2.1]

theorem applyCalls_result (st : LoopSt) (eff : MwEffect) :
    (applyCalls st eff).result = st.result := by
  unfold applyCalls
  simp [(hFold_frame eff.headerCalls st).2.2.2.2.2.2.1]

theorem applyCalls_spt (st : LoopSt) (eff : MwEffect) :
    (applyCalls st eff).spt = (st.spt || eff.passThroughCall) := by
  unfold applyCalls
  simp [(hFold_frame eff.headerCalls st).2.2.2.2.2.1]

theorem applyCalls_respChain (st : LoopSt) (eff : MwEffect) :
    (applyCalls st eff).respChain = st.respChain ++ eff.onRespCalls := by
  unfold applyCalls
  simp [(hFold_frame eff.headerCalls st).2.2.2.2.1]

theorem mergeEnvExt_frame (st : LoopSt) (t : EnvTable) :
    (mergeEnvExt st t).trace = st.trace ∧
    (mergeEnvExt st t).localTrace = st.localTrace ∧
    (mergeEnvExt st t).ctx.cache = st.ctx.cache ∧
    (mergeEnvExt st t).spt = st.spt ∧
    (mergeEnvExt st t).result = st.result ∧
    (mergeEnvExt st t).heap = st.heap ∧
    (mergeEnvExt st t).pRH = st.pRH ∧
    (mergeEnvExt st t).respChain = st.respChain := by
  unfold mergeEnvExt
  split
  · split <;> simp
  · simp

theorem applyExt_frame (e : List ExtEntry) (st st' : LoopSt)
    (h : applyExt st e = .ok st') :
    st'.trace = st.trace ∧
    st'.localTrace = st.localTrace ∧
    st'.ctx.cache = st.ctx.cache ∧
    st'.spt = st.spt ∧
    st'.result = st.result ∧
    st'.heap = st.heap ∧
    st'.pRH = st.pRH := by
  induction e generalizing st with
  | nil =>
      simp only [applyExt] at h
      cases h
      exact ⟨rfl, rfl, rfl, rfl, rfl, rfl, rfl⟩
  | cons entry rest ih =>
      cases entry with
      | envE t =>
          cases t with
          | some tbl =>
              simp only [applyExt] at h
              have h2 := ih _ h
              have h1 := mergeEnvExt_frame st tbl
              exact ⟨h2.1.trans h1.1, h2.2.1.trans h1.2.1, h2.2.2.1.trans h1.2.2.1,
                h2.2.2.2.1.trans h1.2.2.2.1, h2.2.2.2.2.1.trans h1.2.2.2.2.1,
                h2.2.2.2.2.2.1.trans h1.2.2.2.2.2.1, h2.2.2.2.2.2.2.trans h1.2.2.2.2.2.2.1⟩
          | none =>
              simp only [applyExt] at h
              exact ih _ h
      | onRespE c =>
          cases c with
          | some cb =>
              simp only [applyExt] at h
              have h2 := ih _ h
              simpa using h2
          | none =>
              simp only [applyExt] at h
              exact ih _ h
      | prop key d =>
          simp only [applyExt] at h
          split at h
          · exact ih _ h
          · split at h
            · exact absurd h (by simp)
            · have h2 := ih _ h
              simpa using h2

theorem initSt_cache (p : Ctx) (hp : Heap) : (initSt p hp).ctx.cache = p.cache := rfl

theorem initSt_trace (p : Ctx) (hp : Heap) : (initSt p hp).trace = [] := rfl

theorem interpRet_shape (st2 : LoopSt) (ret : MwRet) (sc : LoopSt × Bool)
    (h : interpRet st2 ret = .ok sc) :
    sc.1.trace = st2.trace ∧ sc.1.localTrace = st2.localTrace ∧
    sc.1.ctx.cache = st2.ctx.cache ∧
    (sc.2 = true → sc.1.result = st2.result) := by
  cases ret with
  | resp r =>
      simp only [interpRet] at h
      cases h
      exact ⟨rfl, rfl, rfl, fun hc => Bool.noConfusion hc⟩
  | ext e =>
      simp only [interpRet, Except.map] at h
      cases hax : applyExt st2 e with
      | error err => rw [hax] at h; cases h
      | ok stx =>
          rw [hax] at h
          simp only at h
          cases h
          have hf := applyExt_frame e st2 stx hax
          exact ⟨hf.1, hf.2.1, hf.2.2.1, fun _ => hf.2.2.2.2.1⟩
  | non =>
      simp only [interpRet] at h
      cases h
      exact ⟨rfl, rfl, rfl, fun _ => rfl⟩

theorem fnStep_shape (st : LoopSt) (id : Nat) (run : Ctx → MwEffect)
    (sc : LoopSt × Bool) (h : fnStep st id run = .ok sc) :
    sc.1.trace = st.trace ++ [id] ∧ sc.1.localTrace = st.localTrace ++ [id] ∧
    sc.1.ctx.cache = st.ctx.cache ++ [id] ∧
    (sc.2 = true → sc.1.result = st.result) := by
  simp only [fnStep] at h
  have h2t : (applyCalls (addCache st id) (run (addCache st id).ctx)).trace =
      st.trace ++ [id] := by rw [applyCalls_trace]; rfl
  have h2l : (applyCalls (addCache st id) (run (addCache st id).ctx)).localTrace =
      st.localTrace ++ [id] := by rw [applyCalls_localTrace]; rfl
  have h2c : (applyCalls (addCache st id) (run (addCache st id).ctx)).ctx.cache =
      st.ctx.cache ++ [id] := by rw [applyCalls_cache]; rfl
  have h2r : (applyCalls (addCache st id) (run (addCache st id).ctx)).result =
      st.result := by rw [applyCalls_result]; rfl
  split at h
  · cases h
    exact ⟨h2t, h2l, h2c, fun hc => Bool.noConfusion hc⟩
  · have hs := interpRet_shape _ _ _ h
    exact ⟨hs.1.trans h2t, hs.2.1.trans h2l, hs.2.2.1.trans h2c,
      fun hc => (hs.2.2.2 hc).trans h2r⟩

theorem chainStep_shape (st1 : LoopSt) (out : InvOut) :
    (chainStep st1 out).1.trace = st1.trace ++ out.trace ∧
    (chainStep st1 out).1.localTrace = st1.localTrace ∧
    (chainStep st1 out).1.ctx.cache = st1.ctx.cache ∧
    ((chainStep st1 out).2 = true → (chainStep st1 out).1.result = st1.result) := by
  unfold chainStep
  cases out.response with
  | some r => exact ⟨rfl, rfl, rfl, by intro hc; simp at hc⟩
  | none => exact ⟨rfl, rfl, rfl, fun _ => rfl⟩

theorem postLoop_trace (parent : Ctx) (st : LoopSt) :
    (postLoop parent st).trace = st.trace := by
  unfold postLoop
  cases st.result with
  | some r => simp [finishCore]
  | none =>
      by_cases hi : parent.ignoreNotFound <;> by_cases hs : st.spt <;>
        simp [hi, hs, finishCore]

theorem postLoop_localTrace (parent : Ctx) (st : LoopSt) :
    (postLoop parent st).localTrace = st.localTrace := by
  unfold postLoop
  cases st.result with
  | some r => simp [finishCore]
  | none =>
      by_cases hi : parent.ignoreNotFound <;> by_cases hs : st.spt <;>
        simp [hi, hs, finishCore]

/-- Joint trace-bound invariant: every middleware identity a loop or an
invocation records in its trace either was already there or is reachable
in the executed chain. -/
theorem traceIds (n : Nat) :
    (∀ ms st st', runReq n ms st = .ok st' →
       ∀ i, i ∈ st'.trace → i ∈ st.trace ∨ i ∈ idsList ms) ∧
    (∀ ms parent heap out, invokeChain n ms parent heap = .ok out →
       ∀ i, i ∈ out.trace → i ∈ idsList ms) := by
  induction n with
  | zero =>
      constructor
      · intro ms st st' h
        exact absurd h (by simp [runReq])
      · intro ms parent heap out h
        exact absurd h (by simp [invokeChain])
  | succ n ih =>
      constructor
      · intro ms st st' h i hit
        match ms with
        | [] =>
            simp only [runReq] at h
            cases h
            exact Or.inl hit
        | .fn id run :: rest =>
            simp only [runReq] at h
            by_cases hc : id ∈ st.ctx.cache
            · rw [if_pos hc] at h
              rcases ih.1 rest st st' h i hit with hi | hi
              · exact Or.inl hi
              · exact Or.inr (by simp [idsList, mwIds, hi])
            · rw [if_neg hc] at h
              cases hstep : fnStep st id run with
              | error e => rw [hstep] at h; cases h
              | ok sc =>
                  rw [hstep] at h
                  simp only at h
                  have hs := fnStep_shape st id run sc hstep
                  have hsc : ∀ j, j ∈ sc.1.trace → j ∈ st.trace ∨ j = id := by
                    intro j hj
                    rw [hs.1] at hj
                    rcases List.mem_append.1 hj with hj | hj
                    · exact Or.inl hj
                    · exact Or.inr (List.mem_singleton.1 hj)
                  by_cases hcont : sc.2 = true
                  · rw [if_pos hcont] at h
                    rcases ih.1 rest sc.1 st' h i hit with hi | hi
                    · rcases hsc i hi with hj | hj
                      · exact Or.inl hj
                      · exact Or.inr (by simp [idsList, mwIds, hj])
                    · exact Or.inr (by simp [idsList, hi])
                  · rw [if_neg hcont] at h
                    cases h
                    rcases hsc i hit with hj | hj
                    · exact Or.inl hj
                    · exact Or.inr (by simp [idsList, mwIds, hj])
        | .chainFn id sub :: rest =>
            simp only [runReq] at h
            by_cases hc : id ∈ st.ctx.cache
            · rw [if_pos hc] at h
              rcases ih.1 rest st st' h i hit with hi | hi
              · exact Or.inl hi
              · exact Or.inr (by simp [idsList, hi])
            · rw [if_neg hc] at h
              cases hiv : invokeChain n sub (addCache st id).ctx (addCache st id).heap with
              | error e => rw [hiv] at h; cases h
              | ok out =>
                  rw [hiv] at h
                  simp only at h
                  have hcs := chainStep_shape (addCache st id) out
                  have hsc : ∀ j, j ∈ (chainStep (addCache st id) out).1.trace →
                      j ∈ st.trace ∨ j = id ∨ j ∈ idsList sub := by
                    intro j hj
                    rw [hcs.1] at hj
                    rcases List.mem_append.1 hj with hj | hj
                    · rcases List.mem_append.1 hj with hj | hj
                      · exact Or.inl hj
                      · exact Or.inr (Or.inl (List.mem_singleton.1 hj))
                    · exact Or.inr (Or.inr (ih.2 sub _ _ out hiv j hj))
                  by_cases hcont : (chainStep (addCache st id) out).2 = true
                  · rw [if_pos hcont] at h
                    rcases ih.1 rest _ st' h i hit with hi | hi
                    · rcases hsc i hi with hj | hj | hj
                      · exact Or.inl hj
                      · exact Or.inr (by simp [idsList, mwIds, hj])
                      · exact Or.inr (by simp [idsList, mwIds, hj])
                    · exact Or.inr (by simp [idsList, hi])
                  · rw [if_neg hcont] at h
                    cases h
                    rcases hsc i hit with hj | hj | hj
                    · exact Or.inl hj
                    · exact Or.inr (by simp [idsList, mwIds, hj])
                    · exact Or.inr (by simp [idsList, mwIds, hj])
      · intro ms parent heap out h i hit
        simp only [invokeChain, Except.map] at h
        cases hrr : runReq n ms (initSt parent heap) with
        | error e => rw [hrr] at h; cases h
        | ok st =>
            rw [hrr] at h
            simp only at h
            cases h
            rw [postLoop_trace] at hit
            rcases ih.1 ms (initSt parent heap) st hrr i hit with hi | hi
            · rw [initSt_trace] at hi
              exact absurd hi (List.not_mem_nil i)
            · exact hi

/-- Joint level-dedup invariant: the middlewares invoked directly at one
level of one invocation are pairwise distinct (each is recorded in the
cache before it runs and cached identities are skipped). -/
theorem localNodup (n : Nat) :
    (∀ ms st st', runReq n ms st = .ok st' →
       st.localTrace.Nodup → (∀ i ∈ st.localTrace, i ∈ st.ctx.cache) →
       st'.localTrace.Nodup ∧ (∀ i ∈ st'.localTrace, i ∈ st'.ctx.cache)) ∧
    (∀ ms parent heap out, invokeChain n ms parent heap = .ok out →
       out.localTrace.Nodup) := by
  induction n with
  | zero =>
      constructor
      · intro ms st st' h
        exact absurd h (by simp [runReq])
      · intro ms parent heap out h
        exact absurd h (by simp [invokeChain])
  | succ n ih =>
      constructor
      · intro ms st st' h hnd hinv
        match ms with
        | [] =>
            simp only [runReq] at h
            cases h
            exact ⟨hnd, hinv⟩
        | .fn id run :: rest =>
            simp only [runReq] at h
            by_cases hc : id ∈ st.ctx.cache
            · rw [if_pos hc] at h
              exact ih.1 rest st st' h hnd hinv
            · rw [if_neg hc] at h
              cases hstep : fnStep st id run with
              | error e => rw [hstep] at h; cases h
              | ok sc =>
                  rw [hstep] at h
                  simp only at h
                  have hs := fnStep_shape st id run sc hstep
                  have hnd2 : sc.1.localTrace.Nodup := by
                    rw [hs.2.1, List.nodup_append]
                    refine ⟨hnd, List.nodup_singleton id, ?_⟩
                    intro a ha hb
                    rw [List.mem_singleton] at hb
                    subst hb
                    exact hc (hinv a ha)
                  have hinv2 : ∀ i ∈ sc.1.localTrace, i ∈ sc.1.ctx.cache := by
                    intro i hi
                    rw [hs.2.1] at hi
                    rw [hs.2.2.1]
                    rcases List.mem_append.1 hi with hi | hi
                    · exact List.mem_append_left _ (hinv i hi)
                    · exact List.mem_append_right _ hi
                  by_cases hcont : sc.2 = true
                  · rw [if_pos hcont] at h
                    exact ih.1 rest sc.1 st' h hnd2 hinv2
                  · rw [if_neg hcont] at h
                    cases h
                    exact ⟨hnd2, hinv2⟩
        | .chainFn id sub :: rest =>
            simp only [runReq] at h
            by_cases hc : id ∈ st.ctx.cache
            · rw [if_pos hc] at h
              exact ih.1 rest st st' h hnd hinv
            · rw [if_neg hc] at h
              cases hiv : invokeChain n sub (addCache st id).ctx (addCache st id).heap with
              | error e => rw [hiv] at h; cases h
              | ok out =>
                  rw [hiv] at h
                  simp only at h
                  have hcs := chainStep_shape (addCache st id) out
                  have hlt1 : (addCache st id).localTrace = st.localTrace ++ [id] := rfl
                  have hca1 : (addCache st id).ctx.cache = st.ctx.cache ++ [id] := rfl
                  have hnd2 : (chainStep (addCache st id) out).1.localTrace.Nodup := by
                    rw [hcs.2.1, hlt1, List.nodup_append]
                    refine ⟨hnd, List.nodup_singleton id, ?_⟩
                    intro a ha hb
                    rw [List.mem_singleton] at hb
                    subst hb
                    exact hc (hinv a ha)
                  have hinv2 : ∀ i ∈ (chainStep (addCache st id) out).1.localTrace,
                      i ∈ (chainStep (addCache st id) out).1.ctx.cache := by
                    intro i hi
                    rw [hcs.2.1, hlt1] at hi
                    rw [hcs.2.2.1, hca1]
                    rcases List.mem_append.1 hi with hi | hi
                    · exact List.mem_append_left _ (hinv i hi)
                    · exact List.mem_append_right _ hi
                  by_cases hcont : (chainStep (addCache st id) out).2 = true
                  · rw [if_pos hcont] at h
                    exact ih.1 rest _ st' h hnd2 hinv2
                  · rw [if_neg hcont] at h
                    cases h
                    exact ⟨hnd2, hinv2⟩
      · intro ms parent heap out h
        simp only [invokeChain, Except.map] at h
        cases hrr : runReq n ms (initSt parent heap) with
        | error e => rw [hrr] at h; cases h
        | ok st =>
            rw [hrr] at h
            simp only at h
            cases h
            rw [postLoop_localTrace]
            exact (ih.1 ms (initSt parent heap) st hrr List.nodup_nil
              (by intro i hi; exact absurd hi (List.not_mem_nil i))).1

theorem hget_cons_pos (e : String × String) (tl : List (String × String))
    (q : String) (h : (e.1 == q) = true) : hget (e :: tl) q = some e.2 := by
  simp only [hget, List.find?]
  rw [h]
  rfl

theorem hget_cons_neg (e : String × String) (tl : List (String × String))
    (q : String) (h : (e.1 == q) = false) : hget (e :: tl) q = hget tl q := by
  simp only [hget, List.find?]
  rw [h]

theorem hget_hset (hs : List (String × String)) (k v q : String) :
    hget (hset hs k v) q = if k == q then some v else hget hs q := by
  induction hs with
  | nil =>
      by_cases hq : (k == q) = true
      · rw [if_pos hq]
        exact hget_cons_pos _ _ _ hq
      · rw [if_neg hq]
        exact hget_cons_neg _ _ _ (by simpa using hq)
  | cons e tl ih =>
      simp only [hset]
      by_cases he : (e.1 == k) = true
      · rw [if_pos he]
        by_cases hq : (k == q) = true
        · rw [if_pos hq]
          exact hget_cons_pos _ _ _ hq
        · rw [if_neg hq]
          have hqf : (k == q) = false := by simpa using hq
          rw [hget_cons_neg _ _ _ hqf,
            hget_cons_neg e tl q (by rw [eq_of_beq he]; exact hqf)]
      · rw [if_neg he]
        by_cases hpe : (e.1 == q) = true
        · have hq : ¬((k == q) = true) := by
            intro hkq
            exact he (beq_iff_eq.2 (by rw [eq_of_beq hpe, eq_of_beq hkq]))
          rw [if_neg hq]
          rw [hget_cons_pos _ _ _ hpe, hget_cons_pos _ _ _ hpe]
        · have hpef : (e.1 == q) = false := by simpa using hpe
          rw [hget_cons_neg _ _ _ hpef, ih]
          by_cases hq : (k == q) = true
          · rw [if_pos hq, if_pos hq]
          · rw [if_neg hq, if_neg hq, hget_cons_neg _ _ _ hpef]

/-- The last value a header-call sequence writes to a name, if any. -/
def lastPut (es : List (String × String)) (q : String) : Option String :=
  (es.reverse.find? (fun e => e.1 == q)).map (fun e => e.2)

theorem hget_foldl_hset (es : List (String × String))
    (hs : List (String × String)) (q : String) :
    hget (es.foldl (fun a e => hset a e.1 e.2) hs) q =
      (lastPut es q).or (hget hs q) := by
  induction es generalizing hs with
  | nil => simp [lastPut]
  | cons e tl ih =>
      simp only [List.foldl_cons]
      rw [ih, hget_hset]
      simp only [lastPut, List.reverse_cons, List.find?_append]
      cases hf : tl.reverse.find? (fun x => x.1 == q) with
      | some w => simp [Option.or, hf]
      | none =>
          by_cases hq : (e.1 == q) = true
          · simp [Option.or, hf, List.find?, hq]
          · simp [Option.or, hf, List.find?, hq]

/-- A well-formed header list binds each name at most once (the invariant
`Headers` maintains and `hset` preserves). -/
def keysOk (hs : List (String × String)) : Prop :=
  (hs.map (fun e => e.1)).Nodup

theorem hset_keys_sub (tl : List (String × String)) (k v x : String)
    (hx : x ∈ (hset tl k v).map (fun e => e.1)) :
    x ∈ tl.map (fun e => e.1) ∨ x = k := by
  induction tl with
  | nil =>
      simp [hset] at hx
      exact Or.inr hx
  | cons f ftl ih =>
      simp only [hset] at hx
      by_cases hf : (f.1 == k) = true
      · rw [if_pos hf] at hx
        simp only [List.map_cons, List.mem_cons] at hx
        rcases hx with hx | hx
        · exact Or.inr hx
        · exact Or.inl (List.mem_cons.2 (Or.inr hx))
      · rw [if_neg hf] at hx
        simp only [List.map_cons, List.mem_cons] at hx
        rcases hx with hx | hx
        · exact Or.inl (List.mem_cons.2 (Or.inl hx))
        · rcases ih hx with hy | hy
          · exact Or.inl (List.mem_cons.2 (Or.inr hy))
          · exact Or.inr hy

theorem keysOk_hset (hs : List (String × String)) (k v : String)
    (h : keysOk hs) : keysOk (hset hs k v) := by
  induction hs with
  | nil => simp [hset, keysOk]
  | cons e tl ih =>
      have h0 : (e.1 :: tl.map (fun y => y.1)).Nodup := h
      have hnd := List.nodup_cons.1 h0
      simp only [hset]
      by_cases he : (e.1 == k) = true
      · rw [if_pos he]
        show (k :: tl.map (fun y => y.1)).Nodup
        rw [← eq_of_beq he]
        exact h0
      · rw [if_neg he]
        have h2 : keysOk (hset tl k v) := ih hnd.2
        show (e.1 :: (hset tl k v).map (fun y => y.1)).Nodup
        refine List.nodup_cons.2 ⟨?_, h2⟩
        intro hmem
        rcases hset_keys_sub tl k v e.1 hmem with hy | hy
        · exact hnd.1 hy
        · exact he (beq_iff_eq.2 hy)

theorem keysOk_foldl_hset (es hs : List (String × String)) (h : keysOk hs) :
    keysOk (es.foldl (fun a e => hset a e.1 e.2) hs) := by
  induction es generalizing hs with
  | nil => exact h
  | cons e tl ih => exact ih _ (keysOk_hset hs e.1 e.2 h)

/-- On a well-formed header list, the last binding of a name is its only
binding. -/
theorem lastPut_eq_hget (hs : List (String × String)) (q : String)
    (h : keysOk hs) : lastPut hs q = hget hs q := by
  induction hs with
  | nil => rfl
  | cons e tl ih =>
      have h0 : (e.1 :: tl.map (fun y => y.1)).Nodup := h
      have hnd := List.nodup_cons.1 h0
      by_cases hpe : (e.1 == q) = true
      · have hnone : tl.reverse.find? (fun x => x.1 == q) = none := by
          rw [List.find?_eq_none]
          intro x hx hbeq
          have hx1 : x.1 = e.1 := by rw [eq_of_beq hbeq, eq_of_beq hpe]
          have hm : e.1 ∈ tl.map (fun y => y.1) :=
            hx1 ▸ List.mem_map_of_mem (fun y => y.1) (List.mem_reverse.1 hx)
          exact hnd.1 hm
        rw [hget_cons_pos _ _ _ hpe]
        simp [lastPut, List.find?_append, hnone, List.find?, hpe, Option.or]
      · have hpef : (e.1 == q) = false := by simpa using hpe
        rw [hget_cons_neg _ _ _ hpef, ← ih hnd.2]
        simp only [lastPut, List.reverse_cons, List.find?_append, List.find?, hpef]
        cases hft : tl.reverse.find? (fun x => x.1 == q) <;> simp [Option.or, hft]

/-- After the first `setHeader` has cloned a fresh buffer at the end of
the heap, further `setHeader` calls mutate that cell in place. -/
theorem fold_doSetHeader_own (hc : List (String × String)) (H : Heap)
    (b : List (String × String)) (st : LoopSt)
    (h1 : st.heap = H ++ [b]) (h2 : st.ctx.respHeaders = some H.length)
    (h3 : st.pRH = none) :
    (hc.foldl (fun s e => doSetHeader s e.1 e.2) st).heap =
      H ++ [hc.foldl (fun a e => hset a e.1 e.2) b] ∧
    (hc.foldl (fun s e => doSetHeader s e.1 e.2) st).ctx.respHeaders = some H.length ∧
    (hc.foldl (fun s e => doSetHeader s e.1 e.2) st).pRH = none := by
  induction hc generalizing st b with
  | nil => exact ⟨h1, h2, h3⟩
  | cons e tl ih =>
      simp only [List.foldl_cons]
      have hcond : (st.ctx.respHeaders == st.pRH) = false := by
        rw [h2, h3]; rfl
      have hstep : doSetHeader st e.1 e.2 =
          { st with heap := st.heap.set H.length (hset (st.heap.getD H.length []) e.1 e.2) } := by
        unfold doSetHeader
        rw [if_neg (by simp [hcond, h2, h3])]
        rw [h2]
      have hgd : st.heap.getD H.length [] = b := by
        rw [h1]; simp [List.getD]
      have hsetH : st.heap.set H.length (hset b e.1 e.2) = H ++ [hset b e.1 e.2] := by
        rw [h1]; simp
      refine ih (hset b e.1 e.2) (doSetHeader st e.1 e.2) ?_ ?_ ?_
      · rw [hstep]
        simp only
        rw [hgd, hsetH]
      · rw [hstep]
        exact h2
      · rw [hstep]
        exact h3

/-- From a context with no inherited buffer, a sequence of `setHeader`
calls allocates (on the first call) one fresh buffer holding exactly the
accumulated sets; with no calls, nothing is allocated. -/
theorem fold_doSetHeader_clean (hc : List (String × String)) (st : LoopSt)
    (h0 : st.ctx.respHeaders = none) (h3 : st.pRH = none) :
    (hc = [] → (hc.foldl (fun s e => doSetHeader s e.1 e.2) st) = st) ∧
    (hc ≠ [] →
      (hc.foldl (fun s e => doSetHeader s e.1 e.2) st).heap =
        st.heap ++ [hc.foldl (fun a e => hset a e.1 e.2) []] ∧
      (hc.foldl (fun s e => doSetHeader s e.1 e.2) st).ctx.respHeaders =
        some st.heap.length ∧
      (hc.foldl (fun s e => doSetHeader s e.1 e.2) st).pRH = none) := by
  constructor
  · intro h
    subst h
    rfl
  · intro hne
    match hc, hne with
    | e :: tl, _ =>
        simp only [List.foldl_cons]
        have hcond : (st.ctx.respHeaders == st.pRH) = true := by
          rw [h0, h3]; rfl
        have hstep : doSetHeader st e.1 e.2 =
            { st with heap := st.heap ++ [hset [] e.1 e.2],
                      ctx := { st.ctx with respHeaders := some st.heap.length } } := by
          unfold doSetHeader
          rw [if_pos (by simp [h0, h3])]
          rw [h3]
        have := fold_doSetHeader_own tl st.heap (hset [] e.1 e.2)
          (doSetHeader st e.1 e.2) (by rw [hstep]) (by rw [hstep]) (by rw [hstep]; exact h3)
        exact this

theorem runCallbacks_ids (cbs : List RCallback) (r : Resp) :
    (runCallbacks cbs r).2 = cbs.map (fun cb => cb.id) := by
  induction cbs generalizing r with
  | nil => rfl
  | cons cb rest ih => simp [runCallbacks, ih]

theorem finishCore_cbTrace (st : LoopSt) (r : Resp) :
    (finishCore st r).cbTrace = (finishCore st r).registered := by
  simp [finishCore, runCallbacks_ids]

theorem finishCore_preCb (st : LoopSt) (r : Resp) :
    (finishCore st r).preCb = some (applyBuf r (bufferOf st)) := rfl

theorem finishCore_mwResponse (st : LoopSt) (r : Resp) :
    (finishCore st r).mwResponse = st.result := rfl

theorem finishCore_adapterPT (st : LoopSt) (r : Resp) :
    (finishCore st r).adapterPT = false := rfl

theorem finishCore_registered (st : LoopSt) (r : Resp) :
    (finishCore st r).registered = st.respChain.map (fun cb => cb.id) := rfl

theorem finishCore_noCallbacks (st : LoopSt) (r : Resp) (h : st.respChain = []) :
    (finishCore st r).response = some (applyBuf r (bufferOf st)) := by
  simp [finishCore, h, runCallbacks]

theorem applyBuf_status (r : Resp) (es : List (String × String)) :
    (applyBuf r es).status = r.status := rfl

theorem postLoop_nested (parent : Ctx) (st : LoopSt)
    (h1 : st.result = none) (h2 : parent.ignoreNotFound = true) :
    postLoop parent st =
      { response := none, adapterPT := false, heap := st.heap,
        trace := st.trace, localTrace := st.localTrace, cbTrace := [],
        registered := st.respChain.map (fun cb => cb.id),
        finalProps := st.ctx.own, preCb := none, mwResponse := none } := by
  simp [postLoop, h1, h2]

theorem postLoop_sptTop (parent : Ctx) (st : LoopSt)
    (h1 : st.result = none) (h2 : parent.ignoreNotFound = false) (h3 : st.spt = true) :
    postLoop parent st =
      { response := some notFoundResp, adapterPT := true, heap := st.heap,
        trace := st.trace, localTrace := st.localTrace, cbTrace := [],
        registered := st.respChain.map (fun cb => cb.id),
        finalProps := st.ctx.own, preCb := none, mwResponse := none } := by
  simp [postLoop, h1, h2, h3]

theorem postLoop_finish404 (parent : Ctx) (st : LoopSt)
    (h1 : st.result = none) (h2 : parent.ignoreNotFound = false) (h3 : st.spt = false) :
    postLoop parent st = finishCore st notFoundResp := by
  simp [postLoop, h1, h2, h3]

theorem postLoop_resp (parent : Ctx) (st : LoopSt) (r : Resp)
    (h1 : st.result = some r) :
    postLoop parent st = finishCore st (if r.isDefault then r else cloneResp r) := by
  simp [postLoop, h1]

theorem postLoop_mwResponse (parent : Ctx) (st : LoopSt) :
    (postLoop parent st).mwResponse = st.result := by
  cases hr : st.result with
  | some r => simp [postLoop, hr, finishCore]
  | none =>
      by_cases hi : parent.ignoreNotFound <;> by_cases hs : st.spt <;>
        simp [postLoop, hr, hi, hs, finishCore]

/-- Decompose a successful invocation into its loop outcome and the
post-loop step. -/
theorem invokeChain_ok (n : Nat) (ms : List Mw) (parent : Ctx) (heap : Heap)
    (out : InvOut) (h : invokeChain (n + 1) ms parent heap = .ok out) :
    ∃ st, runReq n ms (initSt parent heap) = .ok st ∧ out = postLoop parent st := by
  simp only [invokeChain, Except.map] at h
  cases hrr : runReq n ms (initSt parent heap) with
  | error e => rw [hrr] at h; cases h
  | ok st =>
      rw [hrr] at h
      simp only at h
      cases h
      exact ⟨st, rfl, rfl⟩

/-- Joint cache-skip invariant: a middleware identity already recorded in
the cache when an invocation (or the rest of a loop) starts is never
invoked by it — the dedup cache is consulted before every invocation and
is copied downward into nested invocations. -/
theorem cacheSkip (n : Nat) :
    (∀ ms st st', runReq n ms st = .ok st' →
       ∀ i, i ∈ st.ctx.cache → i ∈ st'.trace → i ∈ st.trace) ∧
    (∀ ms parent heap out, invokeChain n ms parent heap = .ok out →
       ∀ i, i ∈ parent.cache → i ∉ out.trace) := by
  induction n with
  | zero =>
      constructor
      · intro ms st st' h
        exact absurd h (by simp [runReq])
      · intro ms parent heap out h
        exact absurd h (by simp [invokeChain])
  | succ n ih =>
      constructor
      · intro ms st st' h i hic hit
        match ms with
        | [] =>
            simp only [runReq] at h
            cases h
            exact hit
        | .fn id run :: rest =>
            simp only [runReq] at h
            by_cases hc : id ∈ st.ctx.cache
            · rw [if_pos hc] at h
              exact ih.1 rest st st' h i hic hit
            · rw [if_neg hc] at h
              have hne : i ≠ id := fun he => hc (he ▸ hic)
              cases hstep : fnStep st id run with
              | error e => rw [hstep] at h; cases h
              | ok sc =>
                  rw [hstep] at h
                  simp only at h
                  have hs := fnStep_shape st id run sc hstep
                  have hmem2 : i ∈ sc.1.ctx.cache := by
                    rw [hs.2.2.1]; exact List.mem_append_left _ hic
                  have htrmem : ∀ j, j ∈ sc.1.trace → j = id ∨ j ∈ st.trace := by
                    intro j hj
                    rw [hs.1] at hj
                    rcases List.mem_append.1 hj with hj | hj
                    · exact Or.inr hj
                    · exact Or.inl (List.mem_singleton.1 hj)
                  by_cases hcont : sc.2 = true
                  · rw [if_pos hcont] at h
                    have := ih.1 rest sc.1 st' h i hmem2 hit
                    rcases htrmem i this with he | he
                    · exact absurd he hne
                    · exact he
                  · rw [if_neg hcont] at h
                    cases h
                    rcases htrmem i hit with he | he
                    · exact absurd he hne
                    · exact he
        | .chainFn id sub :: rest =>
            simp only [runReq] at h
            by_cases hc : id ∈ st.ctx.cache
            · rw [if_pos hc] at h
              exact ih.1 rest st st' h i hic hit
            · rw [if_neg hc] at h
              have hne : i ≠ id := fun he => hc (he ▸ hic)
              cases hiv : invokeChain n sub (addCache st id).ctx (addCache st id).heap with
              | error e =>
                  rw [hiv] at h; cases h
              | ok out =>
                  rw [hiv] at h
                  simp only at h
                  have hout : i ∉ out.trace := by
                    refine ih.2 sub _ _ out hiv i ?_
                    show i ∈ st.ctx.cache ++ [id]
                    exact List.mem_append_left _ hic
                  have hcs := chainStep_shape (addCache st id) out
                  have htrmem : ∀ j, j ∈ (chainStep (addCache st id) out).1.trace →
                      j = id ∨ j ∈ st.trace ∨ j ∈ out.trace := by
                    intro j hj
                    rw [hcs.1] at hj
                    rcases List.mem_append.1 hj with hj | hj
                    · rcases List.mem_append.1 hj with hj | hj
                      · exact Or.inr (Or.inl hj)
                      · exact Or.inl (List.mem_singleton.1 hj)
                    · exact Or.inr (Or.inr hj)
                  have hmem2 : i ∈ (chainStep (addCache st id) out).1.ctx.cache := by
                    rw [hcs.2.2.1]
                    show i ∈ st.ctx.cache ++ [id]
                    exact List.mem_append_left _ hic
                  by_cases hcont : (chainStep (addCache st id) out).2 = true
                  · rw [if_pos hcont] at h
                    have := ih.1 rest _ st' h i hmem2 hit
                    rcases htrmem i this with he | he | he
                    · exact absurd he hne
                    · exact he
                    · exact absurd he hout
                  · rw [if_neg hcont] at h
                    cases h
                    rcases htrmem i hit with he | he | he
                    · exact absurd he hne
                    · exact he
                    · exact absurd he hout
      · intro ms parent heap out h i hic
        simp only [invokeChain, Except.map] at h
        cases hrr : runReq n ms (initSt parent heap) with
        | error e => rw [hrr] at h; cases h
        | ok st =>
            rw [hrr] at h
            simp only at h
            cases h
            rw [postLoop_trace]
            intro hmem
            have := ih.1 ms (initSt parent heap) st hrr i
              (by rw [initSt_cache]; exact hic) hmem
            rw [initSt_trace] at this
            exact absurd this (List.not_mem_nil i)

/-!
Concrete fixtures used by the claim theorems and their witnesses.
-/

/-- Fallback outcome for total extraction from `Except` (never reached in
the concrete runs below). -/
def invFail : InvOut :=
  { response := none, adapterPT := false, heap := [], trace := [],
    localTrace := [], cbTrace := [], registered := [], finalProps := [],
    preCb := none, mwResponse := none }

/-- Extract the outcome of a successful invocation. -/
def okOut (x : Except ExecErr InvOut) : InvOut :=
  match x with
  | .ok o => o
  | .error _ => invFail

/-- A middleware that does nothing and returns `undefined`. -/
def mwNoop (i : Nat) : Mw := .fn i (fun _ => effNone)

/-- The status of an optional response. -/
def respStatus (o : Option Resp) : Option Nat := o.map (fun r => r.status)

/-- The chain of the C1 counterexample: the same handler reference
(identity 7) occurs once inside a nested sub-chain (invoked through an
`isolate()`-style wrapper, identity 9) and once directly after it. -/
def c1chain : List Mw := [.chainFn 9 [mwNoop 7], mwNoop 7]

/-- The outcome of running the C1 counterexample chain at top level. -/
def c1out : InvOut := okOut (invokeChain 9 c1chain baseCtx [])

/-- C1: counterexample.  The claim says a handler reference occurring
once via a nested sub-chain and once directly is invoked at most once
per execution.  Running `[chainFn 9 [fn 7], fn 7]` at top level invokes
handler 7 twice (trace `[9, 7, 7]`): the nested invocation's cache is a
copy (`new Set(parentContext[kMiddlewareCache])`), so the entry the
sub-chain adds for 7 never propagates back to the outer loop's cache. -/
theorem claim1_cex :
    invokeChain 9 c1chain baseCtx [] = .ok c1out ∧ c1out.trace.count 7 = 2 := by
  constructor
  · rfl
  · decide

/-- C1 (amended): the dedup cache is copied downward and records each
handler before it runs, so (a) an identity already cached when the
invocation starts — because it ran earlier in an enclosing chain — is
never invoked anywhere in the invocation, nested sub-chains included,
and (b) no identity is invoked twice directly at the same level (same-
level duplicates, e.g. from merged chains, are skipped); but an identity
first invoked inside a nested sub-chain may run again in the enclosing
chain afterwards, because the nested cache copy does not flow back. -/
theorem claim1_amended (n : Nat) (ms : List Mw) (parent : Ctx) (heap : Heap)
    (out : InvOut) (i : Nat) (hi : i ∈ parent.cache)
    (h : invokeChain n ms parent heap = .ok out) :
    i ∉ out.trace ∧ out.localTrace.Nodup :=
  ⟨(cacheSkip n).2 ms parent heap out h i hi,
   (localNodup n).2 ms parent heap out h⟩

/-- Witness chain for C1 (amended): identity 3 occurs twice at one
level, and identity 5 is already cached before the invocation. -/
def c1wChain : List Mw := [mwNoop 3, mwNoop 4, mwNoop 3]

/-- Witness context for C1 (amended). -/
def c1wCtx : Ctx := { baseCtx with cache := [5] }

/-- Witness outcome for C1 (amended). -/
def c1wOut : InvOut := okOut (invokeChain 9 c1wChain c1wCtx [])

theorem claim1_wit :
    5 ∈ c1wCtx.cache ∧ invokeChain 9 c1wChain c1wCtx [] = .ok c1wOut ∧
    5 ∉ c1wOut.trace ∧ c1wOut.localTrace.Nodup := by
  refine ⟨by decide, rfl, ?_, ?_⟩
  · exact (claim1_amended 9 c1wChain c1wCtx [] c1wOut 5 (by decide) rfl).1
  · exact (claim1_amended 9 c1wChain c1wCtx [] c1wOut 5 (by decide) rfl).2

/-- Witness chain heap for C4: two allocated chain values. -/
def c4H : ChainHeap := [[mwNoop 1], [mwNoop 2]]

/-- Witness outcome for C4: invoking chain 0 after the `use` call. -/
def c4wOut : InvOut := okOut (invokeChain 9 (c4H.getD 0 []) baseCtx [])

/-- C4: `use` is pure.  `C.use(arg)` allocates a fresh chain value (its
reference is the next free identity, never `C`'s), leaves `C`'s own
request-chain list unchanged, concatenates the lists when the argument
is itself a chain (appends a single middleware otherwise), and invoking
`C` afterwards never invokes a handler identity not reachable from `C`'s
own list — in particular not a freshly added one. -/
theorem claim4_thm (h : ChainHeap) (r : Nat) (a : UseArg) (hr : r < h.length) :
    (chainUse h r a).2 ≠ r ∧
    (chainUse h r a).1.getD r [] = h.getD r [] ∧
    (∀ j, a = .chn j →
       (chainUse h r a).1.getD (chainUse h r a).2 [] = h.getD r [] ++ h.getD j []) ∧
    (∀ m, a = .mw m →
       (chainUse h r a).1.getD (chainUse h r a).2 [] = h.getD r [] ++ [m]) ∧
    (∀ n parent heap out i, i ∉ idsList (h.getD r []) →
       invokeChain n ((chainUse h r a).1.getD r []) parent heap = .ok out →
       i ∉ out.trace) := by
  have hgetr : (chainUse h r a).1.getD r [] = h.getD r [] := by
    show (h ++ [_]).getD r [] = h.getD r []
    simp [List.getD, List.getElem?_append, hr]
  refine ⟨?_, hgetr, ?_, ?_, ?_⟩
  · show h.length ≠ r
    omega
  · intro j hj
    subst hj
    show (h ++ [h.getD r [] ++ h.getD j []]).getD h.length [] = _
    simp [List.getD]
  · intro m hm
    subst hm
    show (h ++ [h.getD r [] ++ [m]]).getD h.length [] = _
    simp [List.getD]
  · intro n parent heap out i hni hinv
    rw [hgetr] at hinv
    intro hmem
    exact hni ((traceIds n).2 _ parent heap out hinv i hmem)

theorem claim4_wit :
    0 < c4H.length ∧
    (chainUse c4H 0 (.chn 1)).2 ≠ 0 ∧
    (chainUse c4H 0 (.chn 1)).1.getD 0 [] = c4H.getD 0 [] ∧
    (chainUse c4H 0 (.chn 1)).1.getD (chainUse c4H 0 (.chn 1)).2 [] =
      c4H.getD 0 [] ++ c4H.getD 1 [] ∧
    7 ∉ idsList (c4H.getD 0 []) ∧
    invokeChain 9 ((chainUse c4H 0 (.chn 1)).1.getD 0 []) baseCtx [] = .ok c4wOut ∧
    7 ∉ c4wOut.trace := by
  refine ⟨by decide, ?_, ?_, ?_, by decide, rfl, ?_⟩
  · exact (claim4_thm c4H 0 (.chn 1) (by decide)).1
  · exact (claim4_thm c4H 0 (.chn 1) (by decide)).2.1
  · exact (claim4_thm c4H 0 (.chn 1) (by decide)).2.2.1 1 rfl
  · exact (claim4_thm c4H 0 (.chn 1) (by decide)).2.2.2.2 9 baseCtx [] c4wOut 7
      (by decide) rfl

/-- A 200 response used by counterexamples. -/
def r200 : Resp := { status := 200, headers := [], body := "", isDefault := true }

/-- The C2 counterexample chain: no request handler produces a response,
but a registered response callback replaces the synthesized 404 with a
200. -/
def c2chain : List Mw :=
  [.fn 1 (fun _ => { passThroughCall := false, headerCalls := [],
                     onRespCalls := [⟨5, fun _ => some r200⟩], ret := .non })]

/-- The outcome of the C2 counterexample run. -/
def c2out : InvOut := okOut (invokeChain 9 c2chain baseCtx [])

/-- C2: counterexample.  The claim says a non-nested invocation whose
request iteration produces no response returns a response with status
404.  Here the request phase produces no response (`mwResponse = none`)
and the invocation is top-level, yet the returned status is 200, because
the response callback registered during the request phase replaced the
synthesized 404. -/
theorem claim2_cex :
    invokeChain 9 c2chain baseCtx [] = .ok c2out ∧
    baseCtx.ignoreNotFound = false ∧ c2out.mwResponse = none ∧
    respStatus c2out.response = some 200 :=
  ⟨rfl, rfl, rfl, rfl⟩

/-- C2 (amended): when request iteration completes with no response,
a nested invocation returns no value; a top-level invocation synthesizes
a 404 — on a pass-through it returns that 404 immediately (flagging the
parent), otherwise the 404 (with buffered headers applied) is the
current response entering the response phase and is returned unless a
response callback replaces it (in particular it is returned whenever no
callback was registered).  An empty chain invokes no handler. -/
theorem claim2_amended (n : Nat) (ms : List Mw) (parent : Ctx) (heap : Heap)
    (out : InvOut) (h : invokeChain n ms parent heap = .ok out)
    (hnone : out.mwResponse = none) :
    (parent.ignoreNotFound = true → out.response = none) ∧
    (parent.ignoreNotFound = false → out.adapterPT = true →
       out.response = some notFoundResp) ∧
    (parent.ignoreNotFound = false → out.adapterPT = false →
       respStatus out.preCb = some 404 ∧
       (out.registered = [] → respStatus out.response = some 404)) ∧
    (idsList ms = [] → out.trace = []) := by
  match n with
  | 0 => exact absurd h (by simp [invokeChain])
  | n + 1 =>
      have htr : ∀ i, i ∈ out.trace → i ∈ idsList ms :=
        (traceIds (n + 1)).2 ms parent heap out h
      obtain ⟨st, hrr, rfl⟩ := invokeChain_ok n ms parent heap out h
      have hres : st.result = none := by
        rw [postLoop_mwResponse] at hnone
        exact hnone
      refine ⟨?_, ?_, ?_, ?_⟩
      · intro hi
        rw [postLoop_nested parent st hres hi]
      · intro hi hpt
        by_cases hs : st.spt = true
        · rw [postLoop_sptTop parent st hres hi hs]
        · rw [postLoop_finish404 parent st hres hi (by simpa using hs)] at hpt
          rw [finishCore_adapterPT] at hpt
          cases hpt
      · intro hi hpt
        by_cases hs : st.spt = true
        · rw [postLoop_sptTop parent st hres hi hs] at hpt
          simp at hpt
        · rw [postLoop_finish404 parent st hres hi (by simpa using hs)]
          constructor
          · rw [finishCore_preCb]
            simp [respStatus, applyBuf_status, notFoundResp]
          · intro hreg
            rw [finishCore_registered] at hreg
            have hrc : st.respChain = [] := by
              cases hx : st.respChain with
              | nil => rfl
              | cons a b => rw [hx] at hreg; cases hreg
            rw [finishCore_noCallbacks st notFoundResp hrc]
            simp [respStatus, applyBuf_status, notFoundResp]
      · intro hids
        refine List.eq_nil_iff_forall_not_mem.2 (fun i hi => ?_)
        have := htr i hi
        rw [hids] at this
        exact absurd this (List.not_mem_nil i)

/-- Witness context for C2 (amended), marked as nested. -/
def c2wCtx : Ctx := { baseCtx with ignoreNotFound := true }

/-- Witness outcome for C2 (amended): the empty chain invoked nested. -/
def c2wNested : InvOut := okOut (invokeChain 9 [] c2wCtx [])

/-- Witness outcome for C2 (amended): the empty chain invoked at top
level. -/
def c2wTop : InvOut := okOut (invokeChain 9 [] baseCtx [])

theorem claim2_wit :
    invokeChain 9 [] c2wCtx [] = .ok c2wNested ∧
    c2wNested.mwResponse = none ∧ c2wCtx.ignoreNotFound = true ∧
    c2wNested.response = none ∧
    invokeChain 9 [] baseCtx [] = .ok c2wTop ∧
    c2wTop.mwResponse = none ∧ baseCtx.ignoreNotFound = false ∧
    c2wTop.adapterPT = false ∧
    respStatus c2wTop.preCb = some 404 ∧ c2wTop.registered = [] ∧
    respStatus c2wTop.response = some 404 ∧
    idsList ([] : List Mw) = [] ∧ c2wTop.trace = [] := by
  refine ⟨rfl, rfl, rfl, ?_, rfl, rfl, rfl, rfl, ?_, rfl, ?_, rfl, ?_⟩
  · exact (claim2_amended 9 [] c2wCtx [] c2wNested rfl rfl).1 rfl
  · exact ((claim2_amended 9 [] baseCtx [] c2wTop rfl rfl).2.2.1 rfl rfl).1
  · exact ((claim2_amended 9 [] baseCtx [] c2wTop rfl rfl).2.2.1 rfl rfl).2 rfl
  · exact (claim2_amended 9 [] baseCtx [] c2wTop rfl rfl).2.2.2 rfl

/-- The C3 counterexample chain: the first middleware registers a
response callback, the second signals `passThrough()`. -/
def c3chain : List Mw :=
  [.fn 1 (fun _ => { passThroughCall := false, headerCalls := [],
                     onRespCalls := [⟨9, fun _ => none⟩], ret := .non }),
   .fn 2 (fun _ => { effNone with passThroughCall := true })]

/-- The outcome of the C3 counterexample run. -/
def c3out : InvOut := okOut (invokeChain 9 c3chain baseCtx [])

/-- C3: counterexample.  The claim says every response callback
registered during the request phase of a non-nested invocation runs even
when no request handler produced a response.  Here callback 9 is
registered (`registered = [9]`) in a top-level invocation with no
response produced, yet no callback runs (`cbTrace = []`): the
pass-through signal makes the invocation return the synthesized 404
immediately, skipping response-phase processing. -/
theorem claim3_cex :
    invokeChain 9 c3chain baseCtx [] = .ok c3out ∧
    baseCtx.ignoreNotFound = false ∧ c3out.mwResponse = none ∧
    c3out.registered = [9] ∧ c3out.cbTrace = [] :=
  ⟨rfl, rfl, rfl, rfl, rfl⟩

/-- C3 (amended): in a non-nested invocation that does not end in a
top-level pass-through, every response callback registered during the
request phase runs, in registration order (the trace of callbacks run
equals the registration list), even when no request handler produced a
response; a nested invocation that produced no response skips
response-phase processing (no callback runs, no value returned), and so
does a top-level pass-through return. -/
theorem claim3_amended (n : Nat) (ms : List Mw) (parent : Ctx) (heap : Heap)
    (out : InvOut) (h : invokeChain n ms parent heap = .ok out) :
    (parent.ignoreNotFound = false → out.adapterPT = false →
       out.cbTrace = out.registered) ∧
    (parent.ignoreNotFound = true → out.mwResponse = none →
       out.response = none ∧ out.cbTrace = []) ∧
    (out.adapterPT = true → out.cbTrace = []) := by
  match n with
  | 0 => exact absurd h (by simp [invokeChain])
  | n + 1 =>
      obtain ⟨st, hrr, rfl⟩ := invokeChain_ok n ms parent heap out h
      refine ⟨?_, ?_, ?_⟩
      · intro hi hpt
        cases hres : st.result with
        | some r =>
            rw [postLoop_resp parent st r hres]
            exact finishCore_cbTrace st _
        | none =>
            by_cases hs : st.spt = true
            · rw [postLoop_sptTop parent st hres hi hs] at hpt
              simp at hpt
            · rw [postLoop_finish404 parent st hres hi (by simpa using hs)]
              exact finishCore_cbTrace st _
      · intro hi hnone
        rw [postLoop_mwResponse] at hnone
        rw [postLoop_nested parent st hnone hi]
        exact ⟨rfl, rfl⟩
      · intro hpt
        cases hres : st.result with
        | some r =>
            rw [postLoop_resp parent st r hres] at hpt
            rw [finishCore_adapterPT] at hpt
            cases hpt
        | none =>
            by_cases hi : parent.ignoreNotFound = true
            · rw [postLoop_nested parent st hres hi] at hpt
              cases hpt
            · by_cases hs : st.spt = true
              · rw [postLoop_sptTop parent st hres (by simpa using hi) hs]
              · rw [postLoop_finish404 parent st hres (by simpa using hi)
                  (by simpa using hs)] at hpt
                rw [finishCore_adapterPT] at hpt
                cases hpt

/-- Witness chain for C3 (amended): one middleware registers callback 5,
no response is produced. -/
def c3wChain : List Mw :=
  [.fn 1 (fun _ => { passThroughCall := false, headerCalls := [],
                     onRespCalls := [⟨5, fun _ => none⟩], ret := .non })]

/-- Witness outcome for C3 (amended). -/
def c3wOut : InvOut := okOut (invokeChain 9 c3wChain baseCtx [])

theorem claim3_wit :
    invokeChain 9 c3wChain baseCtx [] = .ok c3wOut ∧
    baseCtx.ignoreNotFound = false ∧ c3wOut.adapterPT = false ∧
    c3wOut.registered = [5] ∧ c3wOut.cbTrace = c3wOut.registered := by
  refine ⟨rfl, rfl, rfl, rfl, ?_⟩
  exact (claim3_amended 9 c3wChain baseCtx [] c3wOut rfl).1 rfl rfl

/-- The C5 counterexample chain: the first middleware signals
`passThrough()`; a second middleware follows. -/
def c5chain : List Mw :=
  [.fn 1 (fun _ => { effNone with passThroughCall := true }), mwNoop 2]

/-- The outcome of the C5 counterexample run. -/
def c5out : InvOut := okOut (invokeChain 9 c5chain baseCtx [])

/-- C5: counterexample.  The claim says that after a `passThrough()` no
synthetic 404 is generated at that chain level.  In a top-level
invocation the executor does synthesize and return the 404 (flagging it
to the parent via its captured `passThrough`): the run returns exactly
`notFoundResp`.  (Iteration did stop: only handler 1 ran.) -/
theorem claim5_cex :
    invokeChain 9 c5chain baseCtx [] = .ok c5out ∧
    c5out.response = some notFoundResp ∧ c5out.adapterPT = true ∧
    c5out.trace = [1] :=
  ⟨rfl, rfl, rfl, rfl⟩

/-- C5 (amended): a `passThrough()` signal stops request iteration
immediately after the signalling handler's value resolves — the rest of
the chain is not processed and that handler's own returned value is
discarded (the loop result stays unchanged).  At a nested level no 404
is synthesized and no signal propagates: the invocation returns no value
and the enclosing chain continues.  At top level a 404 is synthesized
and returned immediately — response callbacks are skipped — with the
parent adapter's `passThrough` invoked so it can reinterpret the
result. -/
theorem claim5_amended :
    (∀ (st : LoopSt) (id : Nat) (run : Ctx → MwEffect) (rest : List Mw) (n : Nat),
       id ∉ st.ctx.cache →
       (applyCalls (addCache st id) (run (addCache st id).ctx)).spt = true →
       runReq (n + 1) (.fn id run :: rest) st =
         .ok (applyCalls (addCache st id) (run (addCache st id).ctx)) ∧
       (applyCalls (addCache st id) (run (addCache st id).ctx)).result = st.result) ∧
    (∀ (n : Nat) (ms : List Mw) (parent : Ctx) (heap : Heap) (out : InvOut),
       parent.ignoreNotFound = true →
       invokeChain n ms parent heap = .ok out → out.mwResponse = none →
       out.response = none ∧ out.adapterPT = false) ∧
    (∀ (parent : Ctx) (st : LoopSt),
       parent.ignoreNotFound = false → st.result = none → st.spt = true →
       (postLoop parent st).response = some notFoundResp ∧
       (postLoop parent st).adapterPT = true ∧
       (postLoop parent st).cbTrace = [] ∧
       (postLoop parent st).trace = st.trace) := by
  refine ⟨?_, ?_, ?_⟩
  · intro st id run rest n hc hspt
    have hstep : fnStep st id run =
        .ok (applyCalls (addCache st id) (run (addCache st id).ctx), false) := by
      unfold fnStep
      rw [if_pos hspt]
    constructor
    · simp only [runReq]
      rw [if_neg hc, hstep]
      rfl
    · rw [applyCalls_result]
      rfl
  · intro n ms parent heap out hi h hnone
    match n with
    | 0 => exact absurd h (by simp [invokeChain])
    | n + 1 =>
        obtain ⟨st, hrr, rfl⟩ := invokeChain_ok n ms parent heap out h
        rw [postLoop_mwResponse] at hnone
        rw [postLoop_nested parent st hnone hi]
        exact ⟨rfl, rfl⟩
  · intro parent st hi hres hs
    rw [postLoop_sptTop parent st hres hi hs]
    exact ⟨rfl, rfl, rfl, rfl⟩

/-- Witness state for C5 (amended), part one: the fresh loop state of a
top-level invocation. -/
def c5wSt : LoopSt := initSt baseCtx []

/-- Witness middleware behaviour for C5 (amended): signals pass-through
and returns a response (which must be discarded). -/
def c5wRun : Ctx → MwEffect :=
  fun _ => { passThroughCall := true, headerCalls := [], onRespCalls := [],
             ret := .resp r200 }

/-- Witness context for C5 (amended), part two: a nested parent. -/
def c5wCtx : Ctx := { baseCtx with ignoreNotFound := true }

/-- Witness chain for C5 (amended), part two. -/
def c5wChain : List Mw :=
  [.fn 1 (fun _ => { effNone with passThroughCall := true })]

/-- Witness outcome for C5 (amended), part two. -/
def c5wOut : InvOut := okOut (invokeChain 9 c5wChain c5wCtx [])

/-- Witness state for C5 (amended), part three: loop ended with the
pass-through flag set and no result. -/
def c5wSt3 : LoopSt := { initSt baseCtx [] with spt := true }

theorem claim5_wit :
    1 ∉ c5wSt.ctx.cache ∧
    (applyCalls (addCache c5wSt 1) (c5wRun (addCache c5wSt 1).ctx)).spt = true ∧
    runReq 8 (.fn 1 c5wRun :: [mwNoop 2]) c5wSt =
      .ok (applyCalls (addCache c5wSt 1) (c5wRun (addCache c5wSt 1).ctx)) ∧
    (applyCalls (addCache c5wSt 1) (c5wRun (addCache c5wSt 1).ctx)).result =
      c5wSt.result ∧
    c5wCtx.ignoreNotFound = true ∧
    invokeChain 9 c5wChain c5wCtx [] = .ok c5wOut ∧
    c5wOut.mwResponse = none ∧
    c5wOut.response = none ∧ c5wOut.adapterPT = false ∧
    baseCtx.ignoreNotFound = false ∧ c5wSt3.result = none ∧ c5wSt3.spt = true ∧
    (postLoop baseCtx c5wSt3).response = some notFoundResp ∧
    (postLoop baseCtx c5wSt3).adapterPT = true ∧
    (postLoop baseCtx c5wSt3).cbTrace = [] := by
  refine ⟨by decide, rfl, ?_, ?_, rfl, rfl, rfl, ?_, ?_, rfl, rfl, rfl, ?_, ?_, ?_⟩
  · exact (claim5_amended.1 c5wSt 1 c5wRun [mwNoop 2] 7 (by decide) rfl).1
  · exact (claim5_amended.1 c5wSt 1 c5wRun [mwNoop 2] 7 (by decide) rfl).2
  · exact (claim5_amended.2.1 9 c5wChain c5wCtx [] c5wOut rfl rfl rfl).1
  · exact (claim5_amended.2.1 9 c5wChain c5wCtx [] c5wOut rfl rfl rfl).2
  · exact (claim5_amended.2.2 baseCtx c5wSt3 rfl rfl rfl).1
  · exact (claim5_amended.2.2 baseCtx c5wSt3 rfl rfl rfl).2.1
  · exact (claim5_amended.2.2 baseCtx c5wSt3 rfl rfl rfl).2.2.1

/-- A data descriptor as produced for an object-literal property
(`writable` and `enumerable` true). -/
def litD (s : String) : PropDesc :=
  { value := some s, writable := true, enumerable := true }

/-- The C6 failing-input chain: two handlers whose plugin objects both
define the plain literal property `foo`. -/
def c6chain : List Mw :=
  [.fn 1 (fun _ => { effNone with ret := .ext [.prop "foo" (litD "1")] }),
   .fn 2 (fun _ => { effNone with ret := .ext [.prop "foo" (litD "2")] })]

/-- The outcome of the C6 failing-input run. -/
def c6out : InvOut := okOut (invokeChain 9 c6chain baseCtx [])

/-- C6: the code at the failing input.  The claim (and the library's own
documentation: "The same context property cannot be defined by two
different plugins, or an error will be thrown at runtime") says the
second definition of `foo` must fail at definition time.  The executor
defines plugin properties with `configurable: false` but leaves literal
data properties `writable`, and ES `Object.defineProperty` permits
redefining a non-configurable but writable data property — so the run
completes without error and the second value silently wins
(`foo = "2"`). -/
theorem claim6_eval :
    invokeChain 9 c6chain baseCtx [] = .ok c6out ∧
    (c6out.finalProps.find? (fun e => e.1 == "foo")).map (fun e => e.2.value) =
      some (some "2") :=
  ⟨rfl, rfl⟩

/-- Whether the method filter registered at index `i` rejects `method`
(`false` when no filter is registered there, since a `null` filter
accepts every method). -/
def rejectsAt (filters : List (Option MFilter)) (method : String) (i : Nat) : Bool :=
  match filters.getD i none with
  | none => false
  | some g => !(mfAccepts g method)

theorem acceptsAt_eq (filters : List (Option MFilter)) (method : String) (i : Nat) :
    (match filters.getD i none with
     | none => true
     | some f => mfAccepts f method) = !(rejectsAt filters method i) := by
  unfold rejectsAt
  generalize filters.getD i none = x
  cases x <;> simp

theorem handleRoute_allRejected (filters : List (Option MFilter))
    (handlers : List RouteHandler) (method : String)
    (cands : List (Nat × List (String × String)))
    (hall : cands.all (fun c => rejectsAt filters method c.1) = true) :
    handleRoute filters handlers method cands = (none, []) := by
  induction cands with
  | nil => rfl
  | cons c tl ih =>
      have hc : rejectsAt filters method c.1 = true :=
        (List.all_eq_true.1 hall) c (List.mem_cons_self c tl)
      have htl : tl.all (fun c => rejectsAt filters method c.1) = true :=
        List.all_eq_true.2 (fun x hx =>
          (List.all_eq_true.1 hall) x (List.mem_cons.2 (Or.inr hx)))
      obtain ⟨ci, cps⟩ := c
      simp only [handleRoute]
      have hrej : (match filters.getD ci none with
          | none => true
          | some f => mfAccepts f method) = false := by
        rw [acceptsAt_eq, hc]
        rfl
      rw [hrej]
      simp only [if_false, Bool.false_eq_true]
      exact ih htl

/-- C7: router dispatch falls through on a method-filter rejection — the
matched candidate's handler is not run and dispatch proceeds exactly as
if the matcher had offered only the remaining candidates — and when the
filter at every candidate for the pathname rejects the request's method,
the router produces no response and invokes no route handler. -/
theorem claim7_thm (filters : List (Option MFilter)) (handlers : List RouteHandler)
    (method : String) (i : Nat) (ps : List (String × String))
    (rest cands : List (Nat × List (String × String)))
    (hrej : rejectsAt filters method i = true)
    (hall : cands.all (fun c => rejectsAt filters method c.1) = true) :
    handleRoute filters handlers method ((i, ps) :: rest) =
      handleRoute filters handlers method rest ∧
    handleRoute filters handlers method cands = (none, []) := by
  constructor
  · simp only [handleRoute]
    have hr2 : (match filters.getD i none with
        | none => true
        | some f => mfAccepts f method) = false := by
      rw [acceptsAt_eq, hrej]
      rfl
    rw [hr2]
    simp
  · exact handleRoute_allRejected filters handlers method cands hall

/-- Witness route handlers for C7. -/
def c7handlers : List RouteHandler :=
  [⟨10, fun _ _ => some r200⟩, ⟨20, fun _ _ => some r200⟩]

/-- Witness method filters for C7: `GET /x` at index 0, `POST /x` at
index 1. -/
def c7filters : List (Option MFilter) := [some (.one "GET"), some (.one "POST")]

/-- Witness candidate sequence for C7: the matcher offers both
registrations for the pathname. -/
def c7cands : List (Nat × List (String × String)) := [(0, []), (1, [])]

theorem claim7_wit :
    rejectsAt c7filters "DELETE" 0 = true ∧
    c7cands.all (fun c => rejectsAt c7filters "DELETE" c.1) = true ∧
    handleRoute c7filters c7handlers "DELETE" ((0, []) :: [(1, [])]) =
      handleRoute c7filters c7handlers "DELETE" [(1, [])] ∧
    handleRoute c7filters c7handlers "DELETE" c7cands = (none, []) := by
  refine ⟨by decide, by decide, ?_, ?_⟩
  · exact (claim7_thm c7filters c7handlers "DELETE" 0 [] [(1, [])] c7cands
      (by decide) (by decide)).1
  · exact (claim7_thm c7filters c7handlers "DELETE" 0 [] [(1, [])] c7cands
      (by decide) (by decide)).2

/-- The path pushed by a registration. -/
def regPath : Registration → String
  | .handlerOnly p _ => p
  | .withMethod _ p _ => p

/-- The filter pushed by a registration. -/
def regFilter : Registration → Option MFilter
  | .handlerOnly _ _ => none
  | .withMethod m _ _ => filterOfArg m

/-- The handler pushed by a registration. -/
def regHandler : Registration → RouteHandler
  | .handlerOnly _ h => h
  | .withMethod _ _ h => h

/-- C9: `router.use` mutates the router in place and returns the same
reference: the call yields the receiver's own reference, the state at
that reference gains exactly one entry at the end of each of the
parallel `paths` / `filters` / `handlers` arrays, the compiled matcher
is reset to `undefined`, and every other router is untouched — so
routers, unlike middleware chains, are not immutable values. -/
theorem claim9_thm (hp : List RouterSt) (r : Nat) (reg : Registration)
    (hr : r < hp.length) :
    (routerUseRef hp r reg).2 = r ∧
    ((routerUseRef hp r reg).1.getD r emptyRouter).paths =
      (hp.getD r emptyRouter).paths ++ [regPath reg] ∧
    ((routerUseRef hp r reg).1.getD r emptyRouter).filters =
      (hp.getD r emptyRouter).filters ++ [regFilter reg] ∧
    ((routerUseRef hp r reg).1.getD r emptyRouter).handlers =
      (hp.getD r emptyRouter).handlers ++ [regHandler reg] ∧
    ((routerUseRef hp r reg).1.getD r emptyRouter).matcher = none ∧
    (∀ j, j ≠ r → (routerUseRef hp r reg).1.getD j emptyRouter =
      hp.getD j emptyRouter) := by
  have hget : (routerUseRef hp r reg).1.getD r emptyRouter =
      applyReg (hp.getD r emptyRouter) reg := by
    show ((hp.set r _).getD r emptyRouter) = _
    simp [List.getD, List.getElem?_set, hr]
  refine ⟨rfl, ?_, ?_, ?_, ?_, ?_⟩
  · rw [hget]
    cases reg <;> rfl
  · rw [hget]
    cases reg <;> rfl
  · rw [hget]
    cases reg <;> rfl
  · rw [hget]
    cases reg <;> rfl
  · intro j hj
    show ((hp.set r _).getD j emptyRouter) = _
    have hne : r ≠ j := fun hh => hj hh.symm
    simp [List.getD, List.getElem?_set, hne]

/-- Witness router heap for C9: two empty routers. -/
def c9H : List RouterSt := [emptyRouter, emptyRouter]

/-- Witness registration for C9: `router.use('GET', '/x', handler)`. -/
def c9reg : Registration := .withMethod (.one "GET") "/x" ⟨11, fun _ _ => some r200⟩

theorem claim9_wit :
    0 < c9H.length ∧
    (routerUseRef c9H 0 c9reg).2 = 0 ∧
    ((routerUseRef c9H 0 c9reg).1.getD 0 emptyRouter).paths =
      (c9H.getD 0 emptyRouter).paths ++ [regPath c9reg] ∧
    ((routerUseRef c9H 0 c9reg).1.getD 0 emptyRouter).filters =
      (c9H.getD 0 emptyRouter).filters ++ [regFilter c9reg] ∧
    ((routerUseRef c9H 0 c9reg).1.getD 0 emptyRouter).handlers =
      (c9H.getD 0 emptyRouter).handlers ++ [regHandler c9reg] ∧
    ((routerUseRef c9H 0 c9reg).1.getD 0 emptyRouter).matcher = none ∧
    (routerUseRef c9H 0 c9reg).1.getD 1 emptyRouter = c9H.getD 1 emptyRouter := by
  refine ⟨by decide, ?_, ?_, ?_, ?_, ?_, ?_⟩
  · exact (claim9_thm c9H 0 c9reg (by decide)).1
  · exact (claim9_thm c9H 0 c9reg (by decide)).2.1
  · exact (claim9_thm c9H 0 c9reg (by decide)).2.2.1
  · exact (claim9_thm c9H 0 c9reg (by decide)).2.2.2.1
  · exact (claim9_thm c9H 0 c9reg (by decide)).2.2.2.2.1
  · exact (claim9_thm c9H 0 c9reg (by decide)).2.2.2.2.2 1 (by decide)

/-- Whether an env table maps `k` to an absent or nullish entry (so that
`env[k] ?? super(k)` falls back). -/
def layerNullish (u : EnvTable) (k : String) : Bool :=
  match tlookup u k with
  | some (some _) => false
  | _ => true

/-- C10: the extended environment accessor returns the override table's
value exactly when the table binds the key to a non-nullish value;
a binding to a nullish value, like an absent binding, falls back to the
parent accessor (so a nullish extension cannot shadow a parent-provided
value); and when every layer's binding for the key is absent or nullish
and the base accessor has nothing, the lookup yields `undefined`. -/
theorem claim10_thm (layers : List EnvTable) (base : String → Option String)
    (t : EnvTable) (k : String) (v : String) :
    (tlookup t k = some (some v) →
       extendedEnvGet t (envLookup layers base) k = some v) ∧
    (tlookup t k = some none →
       extendedEnvGet t (envLookup layers base) k = envLookup layers base k) ∧
    (tlookup t k = none →
       extendedEnvGet t (envLookup layers base) k = envLookup layers base k) ∧
    (layers.all (fun u => layerNullish u k) = true → base k = none →
       envLookup layers base k = none) := by
  refine ⟨?_, ?_, ?_, ?_⟩
  · intro h
    simp [extendedEnvGet, h]
  · intro h
    simp [extendedEnvGet, h]
  · intro h
    simp [extendedEnvGet, h]
  · intro hall hbase
    induction layers with
    | nil => simpa [envLookup] using hbase
    | cons u rest ih =>
        have hu : layerNullish u k = true :=
          (List.all_eq_true.1 hall) u (List.mem_cons_self u rest)
        have hrest : envLookup rest base k = none :=
          ih (List.all_eq_true.2 fun x hx =>
            (List.all_eq_true.1 hall) x (List.mem_cons.2 (Or.inr hx)))
        simp only [envLookup, extendedEnvGet]
        unfold layerNullish at hu
        cases hl : tlookup u k with
        | none => exact hrest
        | some w =>
            cases w with
            | none => exact hrest
            | some x =>
                rw [hl] at hu
                exact absurd hu (by simp)

/-- Witness env table for C10 with a non-nullish binding. -/
def c10t1 : EnvTable := [("A", some "x1")]

/-- Witness env table for C10 with a nullish binding. -/
def c10t2 : EnvTable := [("A", none)]

/-- Witness parent layers for C10: the parent provides `A`. -/
def c10layers : List EnvTable := [[("A", some "px")]]

/-- Witness base accessor for C10: the adapter environment is empty. -/
def c10base : String → Option String := fun _ => none

theorem claim10_wit :
    tlookup c10t1 "A" = some (some "x1") ∧
    extendedEnvGet c10t1 (envLookup c10layers c10base) "A" = some "x1" ∧
    tlookup c10t2 "A" = some none ∧
    extendedEnvGet c10t2 (envLookup c10layers c10base) "A" =
      envLookup c10layers c10base "A" ∧
    tlookup c10t2 "B" = none ∧
    extendedEnvGet c10t2 (envLookup c10layers c10base) "B" =
      envLookup c10layers c10base "B" ∧
    [c10t2].all (fun u => layerNullish u "A") = true ∧ c10base "A" = none ∧
    envLookup [c10t2] c10base "A" = none := by
  refine ⟨by decide, ?_, by decide, ?_, by decide, ?_, by decide, rfl, ?_⟩
  · exact (claim10_thm c10layers c10base c10t1 "A" "x1").1 (by decide)
  · exact (claim10_thm c10layers c10base c10t2 "A" "x1").2.1 (by decide)
  · exact (claim10_thm c10layers c10base c10t2 "B" "x1").2.2.1 (by decide)
  · exact (claim10_thm [c10t2] c10base c10t2 "A" "x1").2.2.2 (by decide) rfl

/-- Look up a header on an optional response. -/
def respHeaderGet (o : Option Resp) (k : String) : Option (Option String) :=
  o.map (fun r => hget r.headers k)

theorem hget_applyBuf (r : Resp) (es : List (String × String)) (k : String) :
    hget (applyBuf r es).headers k = (lastPut es k).or (hget r.headers k) := by
  simp only [applyBuf]
  exact hget_foldl_hset es r.headers k

theorem keysOk_nil : keysOk ([] : List (String × String)) := List.nodup_nil

theorem bufC_get (hc : List (String × String)) (k : String) :
    hget (hc.foldl (fun a e => hset a e.1 e.2) []) k = lastPut hc k := by
  rw [hget_foldl_hset]
  cases lastPut hc k <;> simp [hget, Option.or]

theorem lastPut_bufC (hc : List (String × String)) (k : String) :
    lastPut (hc.foldl (fun a e => hset a e.1 e.2) []) k = lastPut hc k := by
  rw [lastPut_eq_hget _ _ (keysOk_foldl_hset hc [] keysOk_nil), bufC_get]

/-- The single middleware of the C8 delivery family: sets the given
headers during the request phase and returns `undefined`. -/
def mkHdrEff (hc : List (String × String)) : MwEffect :=
  { passThroughCall := false, headerCalls := hc, onRespCalls := [], ret := .non }

/-- The single-middleware chain element of the C8 delivery family. -/
def mkHdrMw (id : Nat) (hc : List (String × String)) : Mw :=
  .fn id (fun _ => mkHdrEff hc)

/-- The C8 counterexample chain: a request handler sets a header, then
signals `passThrough()`. -/
def c8chain : List Mw :=
  [.fn 1 (fun _ => { passThroughCall := true, headerCalls := [("x-foo", "1")],
                     onRespCalls := [], ret := .non })]

/-- The outcome of the C8 counterexample run. -/
def c8out : InvOut := okOut (invokeChain 9 c8chain baseCtx [])

/-- C8: counterexample.  The claim says a header set via `setHeader`
during the request phase appears on the final response of every chain
invocation.  Here the handler sets `x-foo` and then signals
`passThrough()`: the top-level invocation returns the synthesized 404
immediately, before buffered headers are applied, so the final response
does not carry `x-foo`. -/
theorem claim8_cex :
    invokeChain 9 c8chain baseCtx [] = .ok c8out ∧
    c8out.response.isSome = true ∧
    respHeaderGet c8out.response "x-foo" = some none :=
  ⟨rfl, rfl, rfl⟩

theorem mkHdr_run (parent : Ctx) (hp : Heap) (n id : Nat)
    (hc : List (String × String)) (hid : id ∉ parent.cache) :
    runReq (n + 2) [mkHdrMw id hc] (initSt parent hp) =
      .ok (applyCalls (addCache (initSt parent hp) id) (mkHdrEff hc)) := by
  have hid2 : id ∉ (initSt parent hp).ctx.cache := hid
  have hspt : (applyCalls (addCache (initSt parent hp) id) (mkHdrEff hc)).spt = false := by
    rw [applyCalls_spt]
    rfl
  have hfn : fnStep (initSt parent hp) id (fun _ => mkHdrEff hc) =
      .ok (applyCalls (addCache (initSt parent hp) id) (mkHdrEff hc), true) := by
    simp only [fnStep]
    rw [if_neg (by rw [hspt]; simp)]
    rfl
  show runReq (n + 1 + 1) (.fn id (fun _ => mkHdrEff hc) :: []) (initSt parent hp) = _
  simp only [runReq]
  rw [if_neg hid2, hfn]
  rfl

theorem mkHdr_invoke (parent : Ctx) (hp : Heap) (n id : Nat)
    (hc : List (String × String)) (out : InvOut)
    (hign : parent.ignoreNotFound = false) (hid : id ∉ parent.cache)
    (h : invokeChain (n + 3) [mkHdrMw id hc] parent hp = .ok out) :
    out = finishCore (applyCalls (addCache (initSt parent hp) id) (mkHdrEff hc))
      notFoundResp := by
  have hrun := mkHdr_run parent hp n id hc hid
  simp only [invokeChain, Except.map] at h
  rw [hrun] at h
  simp only at h
  cases h
  refine postLoop_finish404 parent _ ?_ hign ?_
  · rw [applyCalls_result]
    rfl
  · rw [applyCalls_spt]
    rfl

theorem mkHdr_buffer (parent : Ctx) (hp : Heap) (id : Nat)
    (hc : List (String × String)) (hprh : parent.respHeaders = none) :
    bufferOf (applyCalls (addCache (initSt parent hp) id) (mkHdrEff hc)) =
      hc.foldl (fun a e => hset a e.1 e.2) [] := by
  have hctx : (applyCalls (addCache (initSt parent hp) id) (mkHdrEff hc)).ctx =
      (hc.foldl (fun s e => doSetHeader s e.1 e.2)
        (addCache (initSt parent hp) id)).ctx := rfl
  have hheap : (applyCalls (addCache (initSt parent hp) id) (mkHdrEff hc)).heap =
      (hc.foldl (fun s e => doSetHeader s e.1 e.2)
        (addCache (initSt parent hp) id)).heap := rfl
  have h0 : (addCache (initSt parent hp) id).ctx.respHeaders = none := hprh
  have h3 : (addCache (initSt parent hp) id).pRH = none := hprh
  unfold bufferOf
  rw [hctx, hheap]
  cases hc with
  | nil =>
      simp only [List.foldl_nil]
      rw [h0]
  | cons e tl =>
      have hf := (fold_doSetHeader_clean (e :: tl)
        (addCache (initSt parent hp) id) h0 h3).2 (by simp)
      rw [hf.2.1, hf.1]
      simp [List.getD]

/-- C8 (amended): `setHeader` never mutates an inherited buffer — on
first use (when the context still shares the parent's buffer, or no
buffer exists yet) it clones the inherited entries into a fresh heap
cell scoped to this context, leaving the parent's cell untouched, and
later uses mutate only that fresh cell; a repeated write to the same
name keeps only the last value; and a header set during the request
phase appears on the final response whenever the invocation reaches
response finalization with no replacing callback — in particular, a
top-level run of a chain that sets headers and returns nothing yields
the synthesized 404 carrying exactly the last value written per name
(falling back to the 404's own headers for names never set).  It does
not appear when a top-level pass-through returns the 404 early. -/
theorem claim8_amended :
    (∀ (st : LoopSt) (k v : String) (i : Nat),
       st.ctx.respHeaders = st.pRH → st.pRH = some i → i < st.heap.length →
       (doSetHeader st k v).ctx.respHeaders = some st.heap.length ∧
       (doSetHeader st k v).heap.getD i [] = st.heap.getD i [] ∧
       (doSetHeader st k v).heap.getD st.heap.length [] =
         hset (st.heap.getD i []) k v) ∧
    (∀ (st : LoopSt) (k v : String) (i j : Nat),
       st.pRH = some i → st.ctx.respHeaders = some j → i ≠ j →
       j < st.heap.length →
       (doSetHeader st k v).ctx.respHeaders = some j ∧
       (doSetHeader st k v).heap.getD i [] = st.heap.getD i [] ∧
       (doSetHeader st k v).heap.getD j [] = hset (st.heap.getD j []) k v) ∧
    (∀ (hs : List (String × String)) (k v1 v2 : String),
       hget (hset (hset hs k v1) k v2) k = some v2) ∧
    (∀ (parent : Ctx) (hp : Heap) (n id : Nat) (hc : List (String × String))
       (k : String) (out : InvOut),
       parent.ignoreNotFound = false → parent.respHeaders = none →
       id ∉ parent.cache →
       invokeChain (n + 3) [mkHdrMw id hc] parent hp = .ok out →
       out.response = out.preCb ∧
       respHeaderGet out.response k =
         some ((lastPut hc k).or (hget notFoundResp.headers k))) := by
  refine ⟨?_, ?_, ?_, ?_⟩
  · intro st k v i h1 h2 hlen
    have hcond : (st.ctx.respHeaders == st.pRH) = true := by
      rw [h1]
      simp
    have hstep : doSetHeader st k v =
        { st with heap := st.heap ++ [hset (st.heap.getD i []) k v],
                  ctx := { st.ctx with respHeaders := some st.heap.length } } := by
      unfold doSetHeader
      rw [if_pos hcond, h2]
    refine ⟨?_, ?_, ?_⟩
    · rw [hstep]
    · rw [hstep]
      simp [List.getD, List.getElem?_append, hlen]
    · rw [hstep]
      simp [List.getD]
  · intro st k v i j h1 h2 hne hlen
    have hji : j ≠ i := fun hh => hne hh.symm
    have hcond : (st.ctx.respHeaders == st.pRH) = false := by
      rw [h1, h2]
      simp [hji]
    have hstep : doSetHeader st k v =
        { st with heap := st.heap.set j (hset (st.heap.getD j []) k v) } := by
      unfold doSetHeader
      rw [if_neg (by rw [hcond]; simp), h2]
    refine ⟨?_, ?_, ?_⟩
    · rw [hstep]
      exact h2
    · rw [hstep]
      simp [List.getD, List.getElem?_set, hji]
    · rw [hstep]
      simp [List.getD, List.getElem?_set, hlen]
  · intro hs k v1 v2
    rw [hget_hset]
    simp
  · intro parent hp n id hc k out hign hprh hid h
    have hout := mkHdr_invoke parent hp n id hc out hign hid h
    have hrc : (applyCalls (addCache (initSt parent hp) id) (mkHdrEff hc)).respChain
        = [] := by
      rw [applyCalls_respChain]
      rfl
    subst hout
    constructor
    · rw [finishCore_noCallbacks _ _ hrc, finishCore_preCb]
    · rw [finishCore_noCallbacks _ _ hrc]
      simp only [respHeaderGet, Option.map]
      rw [hget_applyBuf, mkHdr_buffer parent hp id hc hprh, lastPut_bufC]

/-- Witness state for C8, first-use case: the context still shares the
parent's buffer (heap cell 0). -/
def c8wSt1 : LoopSt := initSt { baseCtx with respHeaders := some 0 } [[("a", "1")]]

/-- Witness state for C8, later-use case: the context owns cell 1 while
the parent's buffer is cell 0. -/
def c8wSt2 : LoopSt :=
  { ctx := { baseCtx with respHeaders := some 1 }, pRH := some 0,
    heap := [[("a", "1")], [("b", "2")]], envCreated := false, spt := false,
    respChain := [], trace := [], localTrace := [], result := none }

/-- Witness header calls for C8, delivery case: `x-foo` written twice. -/
def c8wHC : List (String × String) := [("x-foo", "1"), ("x-bar", "1"), ("x-foo", "2")]

/-- Witness outcome for C8, delivery case. -/
def c8wOut : InvOut := okOut (invokeChain 5 [mkHdrMw 1 c8wHC] baseCtx [])

theorem claim8_wit :
    c8wSt1.ctx.respHeaders = c8wSt1.pRH ∧ c8wSt1.pRH = some 0 ∧
    0 < c8wSt1.heap.length ∧
    (doSetHeader c8wSt1 "x-foo" "1").ctx.respHeaders = some c8wSt1.heap.length ∧
    (doSetHeader c8wSt1 "x-foo" "1").heap.getD 0 [] = c8wSt1.heap.getD 0 [] ∧
    (doSetHeader c8wSt1 "x-foo" "1").heap.getD c8wSt1.heap.length [] =
      hset (c8wSt1.heap.getD 0 []) "x-foo" "1" ∧
    c8wSt2.pRH = some 0 ∧ c8wSt2.ctx.respHeaders = some 1 ∧ (0 : Nat) ≠ 1 ∧
    1 < c8wSt2.heap.length ∧
    (doSetHeader c8wSt2 "x-bar" "3").ctx.respHeaders = some 1 ∧
    (doSetHeader c8wSt2 "x-bar" "3").heap.getD 0 [] = c8wSt2.heap.getD 0 [] ∧
    (doSetHeader c8wSt2 "x-bar" "3").heap.getD 1 [] =
      hset (c8wSt2.heap.getD 1 []) "x-bar" "3" ∧
    hget (hset (hset [] "x-foo" "1") "x-foo" "2") "x-foo" = some "2" ∧
    baseCtx.ignoreNotFound = false ∧ baseCtx.respHeaders = none ∧
    1 ∉ baseCtx.cache ∧
    invokeChain 5 [mkHdrMw 1 c8wHC] baseCtx [] = .ok c8wOut ∧
    c8wOut.response = c8wOut.preCb ∧
    respHeaderGet c8wOut.response "x-foo" =
      some ((lastPut c8wHC "x-foo").or (hget notFoundResp.headers "x-foo")) := by
  refine ⟨rfl, rfl, by decide, ?_, ?_, ?_, rfl, rfl, by decide, by decide,
    ?_, ?_, ?_, ?_, rfl, rfl, by decide, rfl, ?_, ?_⟩
  · exact (claim8_amended.1 c8wSt1 "x-foo" "1" 0 rfl rfl (by decide)).1
  · exact (claim8_amended.1 c8wSt1 "x-foo" "1" 0 rfl rfl (by decide)).2.1
  · exact (claim8_amended.1 c8wSt1 "x-foo" "1" 0 rfl rfl (by decide)).2.2
  · exact (claim8_amended.2.1 c8wSt2 "x-bar" "3" 0 1 rfl rfl (by decide)
      (by decide)).1
  · exact (claim8_amended.2.1 c8wSt2 "x-bar" "3" 0 1 rfl rfl (by decide)
      (by decide)).2.1
  · exact (claim8_amended.2.1 c8wSt2 "x-bar" "3" 0 1 rfl rfl (by decide)
      (by decide)).2.2
  · exact claim8_amended.2.2.1 [] "x-foo" "1" "2"
  · exact (claim8_amended.2.2.2 baseCtx [] 2 1 c8wHC "x-foo" c8wOut rfl rfl
      (by decide) rfl).1
  · exact (claim8_amended.2.2.2 baseCtx [] 2 1 c8wHC "x-foo" c8wOut rfl rfl
      (by decide) rfl).2
